import Mathlib

/-!
# ancv: detection decoding and the face recognition / training loop

A shallow embedding of `App.Detect` and `App.Recognize` of `main.go`.

* `float32` values are modelled by `Float32` (NaN, the two infinities, and the
  finite values as rationals); every arithmetic operation rounds its exact
  result to the nearest binary32 value, ties to even, and a constant such as
  `0.3` is the binary32 value nearest to it.  Signed zeros are identified.
* The gocv collaborators (image codec, cascade classifier, LBPH recognizer,
  DNN forward pass), `os.Stat`, `os.Open` and the operator's standard input
  are parameters of the model.
* Every call on the recognizer, every `fmt.Scanln` and the `break train.` log
  line is recorded, in program order, in a trace.  A prediction is recorded
  with its response, a scan by what it stored in `obj.Label`: a number, or
  nothing when it failed before storing.
* A run-time panic and `log.Fatal` end the process; they are outcomes of
  `Detect`, next to the return.
* Writing image files, drawing text and the `Runtime` string are not modelled.
-/

namespace Ancv

/-! ## float32 -/

/-- A `float32` value: not-a-number, an infinity (`neg = true` for the negative
one) or a finite value. -/
inductive Float32 where
  | nan
  | inf (neg : Bool)
  | fin (q : ℚ)
deriving DecidableEq

namespace Float32

/-- Number of binary digits of `n`, by halving (`fuel` bounds the halvings). -/
def bitLenAux : ℕ → ℕ → ℕ
  | 0, _ => 0
  | fuel + 1, n => if n = 0 then 0 else bitLenAux fuel (n / 2) + 1

/-- Number of binary digits of `n`. -/
def bitLen (n : ℕ) : ℕ := bitLenAux n n

/-- The fraction `n * 2 ^ k` as a numerator and a denominator. -/
def scale2 (n : ℕ) (k : ℤ) : ℕ × ℕ :=
  match k with
  | Int.ofNat p => (n * 2 ^ p, 1)
  | Int.negSucc p => (n, 2 ^ (p + 1))

/-- The integer `e` with `2 ^ e ≤ a / d < 2 ^ (e + 1)`, for positive `a`, `d`. -/
def ilog2 (a d : ℕ) : ℤ :=
  let k : ℤ := (bitLen a : ℤ) - (bitLen d : ℤ)
  let s := scale2 d k
  if s.1 ≤ a * s.2 then k else k - 1

/-- The integer nearest to `n / d`, ties to the even one. -/
def roundHalfEven (n d : ℕ) : ℕ :=
  let m := n / d
  let r := n % d
  if 2 * r < d then m
  else if d < 2 * r then m + 1
  else if m % 2 = 0 then m else m + 1

/-- The largest finite binary32 value, `(2 ^ 24 - 1) * 2 ^ 104`. -/
def maxFinite : ℕ := (2 ^ 24 - 1) * 2 ^ 104

/-- The binary32 value nearest to the fraction `n / d` (24 significant bits,
least exponent `-126`, ties to even, overflow to an infinity). -/
def roundFrac (n : ℤ) (d : ℕ) : Float32 :=
  if n = 0 ∨ d = 0 then fin 0
  else
    let a := n.natAbs
    let p : ℤ := max (ilog2 a d) (-126) - 23
    let s := scale2 d p
    let m := roundHalfEven (a * s.2) s.1
    let r := scale2 m p
    if maxFinite * r.2 < r.1 then inf (decide (n < 0))
    else fin (mkRat (if n < 0 then -(r.1 : ℤ) else (r.1 : ℤ)) r.2)

/-- Conversion `float32(n)` of an integer. -/
def ofInt (n : ℤ) : Float32 := roundFrac n 1

/-- The comparison `x < y`; false as soon as one side is NaN. -/
def lt : Float32 → Float32 → Bool
  | nan, _ => false
  | _, nan => false
  | inf a, inf b => a && !b
  | inf a, fin _ => a
  | fin _, inf b => !b
  | fin a, fin b => decide (a.num * b.den < b.num * a.den)

/-- The comparison `x > y`. -/
def gt (x y : Float32) : Bool := lt y x

/-- The difference `x - y`. -/
def sub : Float32 → Float32 → Float32
  | nan, _ => nan
  | _, nan => nan
  | inf a, inf b => if a = b then nan else inf a
  | inf a, fin _ => inf a
  | fin _, inf b => inf (!b)
  | fin a, fin b => roundFrac (a.num * b.den - b.num * a.den) (a.den * b.den)

/-- The product `x * y`. -/
def mul : Float32 → Float32 → Float32
  | nan, _ => nan
  | _, nan => nan
  | inf a, inf b => inf (xor a b)
  | inf a, fin q => if q.num = 0 then nan else inf (xor a (decide (q.num < 0)))
  | fin q, inf b => if q.num = 0 then nan else inf (xor (decide (q.num < 0)) b)
  | fin a, fin b => roundFrac (a.num * b.num) (a.den * b.den)

/-- The quotient `x / y`. -/
def div : Float32 → Float32 → Float32
  | nan, _ => nan
  | _, nan => nan
  | inf _, inf _ => nan
  | inf a, fin q => inf (xor a (decide (q.num < 0)))
  | fin _, inf _ => fin 0
  | fin a, fin b =>
    if b.num = 0 then (if a.num = 0 then nan else inf (decide (a.num < 0)))
    else roundFrac (a.num * b.den * b.num.sign) (a.den * b.num.natAbs)

/-- The conversion `int(x)` to a 64-bit `int`: truncation toward zero; for a
value that `int` cannot represent the result is implementation-dependent and
given by `impl`. -/
def toInt (impl : Float32 → ℤ) : Float32 → ℤ
  | fin q =>
    let t : ℤ := q.num.sign * ((q.num.natAbs / q.den : ℕ) : ℤ)
    if -(2 : ℤ) ^ 63 ≤ t ∧ t < (2 : ℤ) ^ 63 then t else impl (fin q)
  | x => impl x

end Float32

/-! ## Data of `App.Recognize` -/

/-- An `image.Rectangle`, by the coordinates of `Min` and `Max`. -/
structure Rectangle where
  MinX : ℤ
  MinY : ℤ
  MaxX : ℤ
  MaxY : ℤ
deriving DecidableEq

/-- The recognizer's answer `contrib.PredictResponse`. -/
structure PredictResponse where
  Label : ℤ
  Confidence : Float32
deriving DecidableEq

/-- An entry of the response lists; `Label` and `Confidence` are the embedded
`contrib.PredictResponse`. -/
structure RecognizeObj where
  Label : ℤ
  Confidence : Float32
  Ratio : Float32
  Left : ℤ
  Top : ℤ
  Right : ℤ
  Bottom : ℤ
deriving DecidableEq

/-- The request of `App.Recognize`. -/
structure RecognizeReq where
  Input : String
  Output : String
  Storage : String
  Recognized : String
  LbpCascades : String
  FacesDir : String
  Ask : Bool

/-- The response of `App.Recognize` (without `Runtime`). -/
structure RecognizeRsp where
  Unknowns : List RecognizeObj
  List : List RecognizeObj
deriving DecidableEq

/-- The collaborators of `App.Recognize`. -/
structure Vision where
  /-- Images, `gocv.Mat`. -/
  Mat : Type
  IMRead : String → Mat
  Empty : Mat → Bool
  /-- Faces found by the cascade classifier loaded from the given file. -/
  DetectMultiScale : String → Mat → List Rectangle
  Region : Mat → Rectangle → Mat
  /-- Conversion to gray, `gocv.CvtColor(_, &gray, gocv.ColorBGRToGray)`. -/
  CvtColor : Mat → Mat
  /-- The image with a rectangle drawn on it, `gocv.Rectangle`. -/
  Rectangle : Mat → Rectangle → Mat
  /-- Whether `os.Stat` ends with `err == nil || os.IsExist(err)`. -/
  Stat : String → Bool
  /-- States of the LBPH face recognizer. -/
  Model : Type
  NewLBPHFaceRecognizer : Model
  LoadFile : Model → String → Model
  PredictExtendedResponse : Model → Mat → PredictResponse
  Train : Model → List Mat → List ℤ → Model
  Update : Model → List Mat → List ℤ → Model

/-- What `App.Recognize` does to the recognizer and to the operator, with the
index `i` of the face in the loop. -/
inductive Effect where
  | LoadFile (path : String)
  /-- One `PredictExtendedResponse`, with the response it gave. -/
  | Predict (i : ℕ) (p : PredictResponse)
  /-- One `fmt.Scanln(&obj.Label)`: `some v` when `v` was stored in the label,
  `none` when the scan failed before storing anything. -/
  | Scanln (i : ℕ) (reply : Option ℤ)
  | Train (i : ℕ) (label : ℤ)
  | Update (i : ℕ) (label : ℤ)
  /-- The log line `break train.`, followed by `break`. -/
  | BreakTrain (i : ℕ)
  | SaveFile (path : String)
deriving DecidableEq

/-- The variables of `App.Recognize` that change in the loop over the faces. -/
structure RecState (E : Vision) where
  img : E.Mat
  faceRecognizer : E.Model
  isFirst : Bool
  trainCount : ℕ
  rsp : RecognizeRsp
  stdin : List (Option ℤ)
  trace : List Effect

/-- What a call of `App.Recognize` leaves behind. -/
structure RecResult where
  rsp : RecognizeRsp
  stdin : List (Option ℤ)
  trace : List Effect
deriving DecidableEq

/-- The path of the recognizer file: `req.Recognized`, or
`recognized_faces.xml` under the storage directory. -/
def recognizedFile (req : RecognizeReq) : String :=
  let baseDir := "./data"
  let datDir := if req.Storage = "" then baseDir ++ "/lbph" else req.Storage
  if req.Recognized = "" then datDir ++ "/recognized_faces.xml" else req.Recognized

/-- The path of the cascade file. -/
def cascadeFile (req : RecognizeReq) : String :=
  let baseDir := "./data"
  let lbpDir := if req.LbpCascades = "" then baseDir ++ "/lbpcascades" else req.LbpCascades
  lbpDir ++ "/lbpcascade_frontalface.xml"

/-- The outcome of one `fmt.Scanln(&obj.Label)`: the reply (`some v` when `v` was
stored, `none` when the scan failed before storing anything), the label after
the scan, and the rest of the operator's input. -/
structure Scan where
  reply : Option ℤ
  label : ℤ
  rest : List (Option ℤ)
deriving DecidableEq

/-- One `fmt.Scanln(&obj.Label)` on the operator's input, `label` being the
value of `obj.Label` before the scan: a failed scan, also at the end of the
input, leaves the label as it was. -/
def Scanln (stdin : List (Option ℤ)) (label : ℤ) : Scan :=
  match stdin with
  | [] => { reply := none, label := label, rest := [] }
  | none :: rest => { reply := none, label := label, rest := rest }
  | some v :: rest => { reply := some v, label := v, rest := rest }

/-- The object of a face before the training branch: the rectangle, and, when
the model is not empty, the prediction and its ratio. -/
def predictObj (E : Vision) (isFirst : Bool) (faceRecognizer : E.Model) (rect : Rectangle)
    (gray : E.Mat) : RecognizeObj :=
  let obj : RecognizeObj :=
    { Label := 0, Confidence := Float32.fin 0, Ratio := Float32.fin 0,
      Left := rect.MinX, Top := rect.MinY, Right := rect.MaxX, Bottom := rect.MaxY }
  if !isFirst then
    let p := E.PredictExtendedResponse faceRecognizer gray
    let obj := { obj with Label := p.Label, Confidence := p.Confidence }
    let maxConfidence := Float32.ofInt 200
    if Float32.lt obj.Confidence maxConfidence then
      { obj with
        Ratio := Float32.mul
          (Float32.div (Float32.sub maxConfidence obj.Confidence) maxConfidence)
          (Float32.ofInt 100) }
    else obj
  else obj

/-- Whether the face enters the training branch:
`obj.Label <= 0 || obj.Ratio < 90`. -/
def needsTraining (obj : RecognizeObj) : Bool :=
  decide (obj.Label ≤ 0) || Float32.lt obj.Ratio (Float32.ofInt 90)

/-- The branch `if req.Ask`: the label is scanned into `obj.Label`; a positive
label is applied with `Train` or `Update`, the label `-1` leaves the loop. The
boolean is true when the loop is left. -/
def askLabel (E : Vision) (s : RecState E) (i : ℕ) (gray : E.Mat) (obj : RecognizeObj) :
    RecognizeObj × RecState E × Bool :=
  let scan := Scanln s.stdin obj.Label
  let obj : RecognizeObj := { obj with Label := scan.label }
  let s : RecState E :=
    { s with stdin := scan.rest, trace := s.trace ++ [Effect.Scanln i scan.reply] }
  if 0 < obj.Label then
    let s : RecState E :=
      if s.isFirst then
        { s with
          faceRecognizer := E.Train s.faceRecognizer [gray] [obj.Label]
          isFirst := false
          trace := s.trace ++ [Effect.Train i obj.Label] }
      else
        { s with
          faceRecognizer := E.Update s.faceRecognizer [gray] [obj.Label]
          trace := s.trace ++ [Effect.Update i obj.Label] }
    (obj, { s with trainCount := s.trainCount + 1 }, false)
  else if obj.Label = -1 then
    (obj, { s with trace := s.trace ++ [Effect.BreakTrain i] }, true)
  else (obj, s, false)

/-- The routing of a face at the end of the body: appended to `List` when its
label is positive, to `Unknowns` otherwise. -/
def route (rsp : RecognizeRsp) (obj : RecognizeObj) : RecognizeRsp :=
  if 0 < obj.Label then { rsp with List := rsp.List ++ [obj] }
  else { rsp with Unknowns := rsp.Unknowns ++ [obj] }

/-- The body of the loop over the faces, for face `i` with rectangle `rect`.
The boolean is true when the body ends with `break`. -/
def faceStep (E : Vision) (req : RecognizeReq) (s : RecState E) (i : ℕ)
    (rect : Rectangle) : RecState E × Bool :=
  let faceImage := E.Region s.img rect
  let gray := E.CvtColor faceImage
  let obj := predictObj E s.isFirst s.faceRecognizer rect gray
  let s : RecState E :=
    if !s.isFirst then
      { s with
        trace := s.trace ++ [Effect.Predict i (E.PredictExtendedResponse s.faceRecognizer gray)] }
    else s
  let r : RecognizeObj × RecState E × Bool :=
    if needsTraining obj && req.Ask then askLabel E s i gray obj else (obj, s, false)
  if r.2.2 then (r.2.1, true)
  else
    let obj := r.1
    let s := r.2.1
    ({ s with rsp := route s.rsp obj, img := E.Rectangle s.img rect }, false)

/-- The loop `for i, rect := range rects`, from index `i` on. -/
def faceLoop (E : Vision) (req : RecognizeReq) :
    RecState E → ℕ → List Rectangle → RecState E
  | s, _, [] => s
  | s, i, rect :: rects =>
    let r := faceStep E req s i rect
    if r.2 then r.1 else faceLoop E req r.1 (i + 1) rects

/-- The state in which the loop over the faces starts. -/
def startState (E : Vision) (req : RecognizeReq) (rsp : RecognizeRsp)
    (stdin : List (Option ℤ)) : RecState E :=
  let img := E.IMRead req.Input
  let faceRecognizer := E.NewLBPHFaceRecognizer
  if E.Stat (recognizedFile req) then
    { img := img, faceRecognizer := E.LoadFile faceRecognizer (recognizedFile req),
      isFirst := false, trainCount := 0, rsp := rsp, stdin := stdin,
      trace := [Effect.LoadFile (recognizedFile req)] }
  else
    { img := img, faceRecognizer := faceRecognizer, isFirst := true, trainCount := 0,
      rsp := rsp, stdin := stdin, trace := [] }

/-- The method `App.Recognize`, called with the response `rsp` and with the
operator's replies `stdin`. -/
def Recognize (E : Vision) (req : RecognizeReq) (rsp : RecognizeRsp)
    (stdin : List (Option ℤ)) : RecResult :=
  let img := E.IMRead req.Input
  if E.Empty img then { rsp := rsp, stdin := stdin, trace := [] }
  else
    let rects := E.DetectMultiScale (cascadeFile req) img
    let s := faceLoop E req (startState E req rsp stdin) 0 rects
    if 0 < s.trainCount then
      { rsp := s.rsp, stdin := s.stdin,
        trace := s.trace ++ [Effect.SaveFile (recognizedFile req)] }
    else { rsp := s.rsp, stdin := s.stdin, trace := s.trace }

/-! ## `App.Detect` -/

/-- The request of `App.Detect`. -/
structure DetectReq where
  Input : String
  Output : String
  CocoDir : String

/-- An entry of the response list of `App.Detect`. -/
structure DetectObj where
  ClassId : ℤ
  ClassName : String
  Confidence : Float32
  Left : ℤ
  Top : ℤ
  Right : ℤ
  Bottom : ℤ
deriving DecidableEq

/-- The response of `App.Detect` (without `Runtime`). -/
structure DetectRsp where
  List : List DetectObj
deriving DecidableEq

/-- How a call ends. -/
inductive Outcome (α : Type) where
  /-- The method returns `nil`, leaving the response. -/
  | returned (rsp : α)
  /-- The process ends in `os.Exit(code)`, as `log.Fatal` does with code 1. -/
  | exited (code : ℕ)
  /-- A run-time panic: index out of range. -/
  | panicked
  /-- The read `GetFloatAt` went past the last scalar of the matrix. -/
  | invalidRead
  /-- The bound on the number of iterations of the model was too small. -/
  | outOfFuel
deriving DecidableEq

/-- The collaborators of `App.Detect`. -/
structure Detector where
  /-- Images, `gocv.Mat`. -/
  Mat : Type
  IMRead : String → Mat
  Empty : Mat → Bool
  Cols : Mat → ℤ
  Rows : Mat → ℤ
  /-- The lines that the scanner reads from a file, `none` when `os.Open`
  fails. -/
  Open : String → Option (List String)
  /-- The scalars, `Total()` of them, of the forward pass of the net that is
  read from a model file and a configuration file, on the blob of an image. -/
  Forward : String → String → Mat → List Float32
  /-- The implementation-dependent `int(x)` of an unrepresentable `x`. -/
  intOf : Float32 → ℤ

/-- White space in the sense of `unicode.IsSpace`. -/
def isSpace (c : Char) : Bool :=
  let n := c.toNat
  n = 9 || n = 10 || n = 11 || n = 12 || n = 13 || n = 32 || n = 133 || n = 160
    || n = 5760 || (8192 ≤ n && n ≤ 8202) || n = 8232 || n = 8233 || n = 8239
    || n = 8287 || n = 12288

/-- The function `strings.TrimSpace`. -/
def TrimSpace (s : String) : String :=
  String.mk ((s.data.dropWhile isSpace).reverse.dropWhile isSpace).reverse

/-- The read `mat.GetFloatAt(0, j)` in a matrix of one row. -/
def GetFloatAt (mat : List Float32) (j : ℕ) : Option Float32 := mat.get? j

/-- The index expression `classes[classId]`; `none` is the panic. -/
def classAt (classes : List String) (classId : ℤ) : Option String :=
  if 0 ≤ classId ∧ classId < classes.length then classes.get? classId.toNat else none

/-- The loop `for i := 0; i < mat.Total(); i += 7` from index `i` on; `fuel`
bounds the number of tests of the loop condition. -/
def detectLoop (D : Detector) (img : D.Mat) (classes : List String) (mat : List Float32) :
    ℕ → ℕ → DetectRsp → Outcome DetectRsp
  | 0, _, _ => Outcome.outOfFuel
  | fuel + 1, i, rsp =>
    if i < mat.length then
      match GetFloatAt mat (i + 1), GetFloatAt mat (i + 2) with
      | some c, some confidence =>
        let classId := Float32.toInt D.intOf c
        if Float32.gt confidence (Float32.roundFrac 3 10) then
          match GetFloatAt mat (i + 3), GetFloatAt mat (i + 4), GetFloatAt mat (i + 5),
              GetFloatAt mat (i + 6) with
          | some x3, some x4, some x5, some x6 =>
            let l := Float32.toInt D.intOf (Float32.mul x3 (Float32.ofInt (D.Cols img)))
            let t := Float32.toInt D.intOf (Float32.mul x4 (Float32.ofInt (D.Rows img)))
            let r := Float32.toInt D.intOf (Float32.mul x5 (Float32.ofInt (D.Cols img)))
            let b := Float32.toInt D.intOf (Float32.mul x6 (Float32.ofInt (D.Rows img)))
            match classAt classes classId with
            | none => Outcome.panicked
            | some name =>
              let obj : DetectObj :=
                { ClassId := classId, ClassName := name, Confidence := confidence,
                  Left := l, Top := t, Right := r, Bottom := b }
              detectLoop D img classes mat fuel (i + 7) { List := rsp.List ++ [obj] }
          | _, _, _, _ => Outcome.invalidRead
        else detectLoop D img classes mat fuel (i + 7) rsp
      | _, _ => Outcome.invalidRead
    else Outcome.returned rsp

/-- The directory of the model. -/
def cocoDir (req : DetectReq) : String :=
  if req.CocoDir = "" then "./data" ++ "/ssdlite_mobilenet_v2_coco" else req.CocoDir

/-- The method `App.Detect`, called with the response `rsp`. -/
def Detect (D : Detector) (req : DetectReq) (rsp : DetectRsp) : Outcome DetectRsp :=
  let img := D.IMRead req.Input
  if D.Empty img then Outcome.returned rsp
  else
    let modFile := cocoDir req ++ "/frozen_inference_graph.pb"
    let cfgFile := cocoDir req ++ "/ssdlite_mobilenet_v2_coco.pbtxt"
    match D.Open (cocoDir req ++ "/classes.txt") with
    | none => Outcome.exited 1
    | some lines =>
      let classes := lines.map TrimSpace
      let mat := D.Forward modFile cfgFile img
      detectLoop D img classes mat (mat.length + 1) 0 rsp

/-- One group of seven scalars of the detector's output. -/
structure Group where
  imageId : Float32
  classId : Float32
  confidence : Float32
  left : Float32
  top : Float32
  right : Float32
  bottom : Float32
deriving DecidableEq

/-- The seven scalars of a group, in order. -/
def Group.scalars (g : Group) : List Float32 :=
  [g.imageId, g.classId, g.confidence, g.left, g.top, g.right, g.bottom]

/-- The flat output made of consecutive groups. -/
def flatten (gs : List Group) : List Float32 := (gs.map Group.scalars).flatten

/-- Whether the group passes the test `confidence > 0.3`. -/
def Group.retained (g : Group) : Bool :=
  Float32.gt g.confidence (Float32.roundFrac 3 10)

/-- The class identifier `int(classId)` of a group. -/
def Group.classIdInt (D : Detector) (g : Group) : ℤ := Float32.toInt D.intOf g.classId

/-- Whether the class identifier of the group is an index of the table. -/
def Group.inTable (D : Detector) (classes : List String) (g : Group) : Bool :=
  decide (0 ≤ g.classIdInt D ∧ g.classIdInt D < classes.length)

/-- The detection decoded from a group, with the given class name. -/
def Group.toObj (D : Detector) (img : D.Mat) (classes : List String) (g : Group) : DetectObj :=
  { ClassId := g.classIdInt D
    ClassName := (classes.get? (g.classIdInt D).toNat).getD ""
    Confidence := g.confidence
    Left := Float32.toInt D.intOf (Float32.mul g.left (Float32.ofInt (D.Cols img)))
    Top := Float32.toInt D.intOf (Float32.mul g.top (Float32.ofInt (D.Rows img)))
    Right := Float32.toInt D.intOf (Float32.mul g.right (Float32.ofInt (D.Cols img)))
    Bottom := Float32.toInt D.intOf (Float32.mul g.bottom (Float32.ofInt (D.Rows img))) }

/-- A detector world for examples: an image is its path, unreadable when the
path is empty; the class table exists under the directory `coco` only. -/
def toyDetector (out : List Float32) : Detector where
  Mat := String
  IMRead := fun path => path
  Empty := fun m => m = ""
  Cols := fun _ => 100
  Rows := fun _ => 50
  Open := fun path => if path = "coco/classes.txt" then some ["zero", " one ", "two"] else none
  Forward := fun _ _ _ => out
  intOf := fun _ => -(2 : ℤ) ^ 63

/-! ## A small concrete world -/

/-- A world for examples: an image is a list of face rectangles, readable when
its path is not empty; the model is the list of labels it was taught and
predicts the table entry of the rectangle's `MinX`. -/
def toyVision (exists_ : Bool) (table : ℤ → PredictResponse) : Vision where
  Mat := List Rectangle
  IMRead := fun path =>
    if path = "" then []
    else if path = "one" then [⟨0, 0, 10, 10⟩]
    else [⟨0, 0, 10, 10⟩, ⟨1, 0, 11, 10⟩, ⟨2, 0, 12, 10⟩]
  Empty := fun m => m.isEmpty
  DetectMultiScale := fun _ m => m
  Region := fun _ r => [r]
  CvtColor := fun m => m
  Rectangle := fun m _ => m
  Stat := fun _ => exists_
  Model := List ℤ
  NewLBPHFaceRecognizer := []
  LoadFile := fun _ _ => [0]
  PredictExtendedResponse := fun _ m =>
    match m with
    | [] => ⟨0, Float32.fin 0⟩
    | r :: _ => table r.MinX
  Train := fun _ _ ls => ls
  Update := fun m _ ls => m ++ ls

/-! ## Notions used in the statements -/

/-- The rectangle carried by an entry. -/
def RecognizeObj.rect (o : RecognizeObj) : Rectangle :=
  { MinX := o.Left, MinY := o.Top, MaxX := o.Right, MaxY := o.Bottom }

/-- Whether the label of an entry is positive, the test `obj.Label > 0`. -/
def RecognizeObj.positive (o : RecognizeObj) : Bool := decide (0 < o.Label)

/-- The entries with a positive label, in order. -/
def knownOf (objs : List RecognizeObj) : List RecognizeObj :=
  objs.filter (fun o => o.positive)

/-- The entries without a positive label, in order. -/
def unknownOf (objs : List RecognizeObj) : List RecognizeObj :=
  objs.filter (fun o => !o.positive)

/-- Whether the effect puts data in the model: `LoadFile` or `Train`. -/
def Effect.fills : Effect → Bool
  | Effect.LoadFile _ => true
  | Effect.Train _ _ => true
  | _ => false

/-- Whether the effect is a call of `Train`. -/
def Effect.isTrain : Effect → Bool
  | Effect.Train _ _ => true
  | _ => false

/-- Whether the effect changes the model: `Train` or `Update`. -/
def Effect.mutates : Effect → Bool
  | Effect.Train _ _ => true
  | Effect.Update _ _ => true
  | _ => false

/-- Whether the model, new at the start of the call, is still empty after the
effects `tr`: nothing was loaded and nothing was trained. -/
def modelEmpty (tr : List Effect) : Bool := tr.all (fun e => !e.fills)

/-- The run of the two-state life cycle of the model over a trace, from the
emptiness `e`: `none` as soon as `Train` is called on a model that is not empty
or `Update` or `Predict` on an empty one, else the emptiness at the end. -/
def lifeRun : Bool → List Effect → Option Bool
  | e, [] => some e
  | _, Effect.LoadFile _ :: t => lifeRun false t
  | e, Effect.Train _ _ :: t => if e then lifeRun false t else none
  | e, Effect.Update _ _ :: t => if e then none else lifeRun e t
  | e, Effect.Predict _ _ :: t => if e then none else lifeRun e t
  | e, Effect.Scanln _ _ :: t => lifeRun e t
  | e, Effect.BreakTrain _ :: t => lifeRun e t
  | e, Effect.SaveFile _ :: t => lifeRun e t

/-- The gray face of the body of the loop. -/
def faceGray (E : Vision) (s : RecState E) (rect : Rectangle) : E.Mat :=
  E.CvtColor (E.Region s.img rect)

/-- The object of the face when the training branch is reached. -/
def facePredicted (E : Vision) (s : RecState E) (rect : Rectangle) : RecognizeObj :=
  predictObj E s.isFirst s.faceRecognizer rect (faceGray E s rect)

/-- The response of the recognizer for the face, were it asked. -/
def facePrediction (E : Vision) (s : RecState E) (rect : Rectangle) : PredictResponse :=
  E.PredictExtendedResponse s.faceRecognizer (faceGray E s rect)

/-- The effects of the body of the loop before the training branch. -/
def predictEvents (isFirst : Bool) (i : ℕ) (p : PredictResponse) : List Effect :=
  if isFirst then [] else [Effect.Predict i p]

/-- The scan of the body of the loop, were the operator asked. -/
def faceScan (E : Vision) (s : RecState E) (rect : Rectangle) : Scan :=
  Scanln s.stdin (facePredicted E s rect).Label

/-- The object of the face after the scan. -/
def faceLabeled (E : Vision) (s : RecState E) (rect : Rectangle) : RecognizeObj :=
  { facePredicted E s rect with Label := (faceScan E s rect).label }

/-- The predictions of a model that is not empty for the faces `rects` of the
image, each face being cut out after the rectangles of the faces before it
were drawn. -/
def predictAll (E : Vision) (m : E.Model) : E.Mat → List Rectangle → List RecognizeObj
  | _, [] => []
  | img, rect :: rects =>
    predictObj E false m rect (E.CvtColor (E.Region img rect))
      :: predictAll E m (E.Rectangle img rect) rects

/-- The response `rsp` is `rsp0` followed by one entry for each of the faces
`rects`, in their order: each entry carries the rectangle of its face and is in
`List` when its label is positive, in `Unknowns` otherwise. -/
def ListsOf (rsp0 : RecognizeRsp) (rects : List Rectangle) (rsp : RecognizeRsp) : Prop :=
  ∃ objs : List RecognizeObj, objs.map RecognizeObj.rect = rects ∧
    rsp.List = rsp0.List ++ knownOf objs ∧ rsp.Unknowns = rsp0.Unknowns ++ unknownOf objs

/-- The loop was not left so far: no `break train.` and no reply `-1`. -/
def Unbroken (tr : List Effect) : Prop :=
  (∀ k, Effect.BreakTrain k ∉ tr) ∧ (∀ k, Effect.Scanln k (some (-1)) ∉ tr)

/-- The state of the response and of the trace at the end of the loop over the
faces `all`: the first `m` faces have their entries, and either all faces were
done or the loop was left at the face of index `m`. -/
def LoopEnd (rsp0 : RecognizeRsp) (all : List Rectangle) (rsp : RecognizeRsp)
    (tr : List Effect) : Prop :=
  ∃ m, ListsOf rsp0 (all.take m) rsp ∧
    ((m = all.length ∧ Unbroken tr) ∨
      (m < all.length ∧ Effect.BreakTrain m ∈ tr ∧ (∀ k, Effect.BreakTrain k ∈ tr → k = m) ∧
        (∀ k, Effect.Scanln k (some (-1)) ∈ tr → k = m)))

/-- Some face was applied to the model: the trace has a `Train` or an
`Update`. -/
def Applied (tr : List Effect) : Prop :=
  ∃ j l, Effect.Train j l ∈ tr ∨ Effect.Update j l ∈ tr

/-- Every `Train` and `Update` of the trace has a positive label and follows a
scan on the same face, which either stored that label or failed. -/
def AppliedAfterScan (tr : List Effect) : Prop :=
  ∀ j l, Effect.Train j l ∈ tr ∨ Effect.Update j l ∈ tr →
    0 < l ∧ (Effect.Scanln j (some l) ∈ tr ∨ Effect.Scanln j none ∈ tr)

/-- Every positive reply of the trace was applied with `Train` or `Update`. -/
def PositiveApplied (tr : List Effect) : Prop :=
  ∀ j v, 0 < v → Effect.Scanln j (some v) ∈ tr →
    Effect.Train j v ∈ tr ∨ Effect.Update j v ∈ tr

/-- Every `Train` and `Update` of the trace is for a face of index below `n`. -/
def AppliedBefore (n : ℕ) (tr : List Effect) : Prop :=
  ∀ j l, Effect.Train j l ∈ tr ∨ Effect.Update j l ∈ tr → j < n

/-- The ratio that goes with the distance of an entry: the entry's `Ratio` is
`(200 - d) / 200 * 100` when its distance `d` is below 200, and zero
otherwise. -/
def RatioOk (o : RecognizeObj) : Prop :=
  (Float32.lt o.Confidence (Float32.ofInt 200) = true →
    o.Ratio = Float32.mul
      (Float32.div (Float32.sub (Float32.ofInt 200) o.Confidence) (Float32.ofInt 200))
      (Float32.ofInt 100)) ∧
  (Float32.lt o.Confidence (Float32.ofInt 200) = false → o.Ratio = Float32.fin 0)

/-- Predictions for examples: label 5 at distance 21 for the face at `MinX = 0`,
label 3 at distance 10 for the face at `MinX = 1`, label 0 at distance 250 for
the others. -/
def toyTable : ℤ → PredictResponse := fun x =>
  if x = 0 then { Label := 5, Confidence := Float32.fin 21 }
  else if x = 1 then { Label := 3, Confidence := Float32.fin 10 }
  else { Label := 0, Confidence := Float32.fin 250 }

/-- A request for examples, on the image named `input`. -/
def toyReq (input : String) (ask : Bool) : RecognizeReq :=
  { Input := input, Output := "", Storage := "", Recognized := "", LbpCascades := "",
    FacesDir := "", Ask := ask }

/-- The empty response. -/
def emptyRsp : RecognizeRsp := { Unknowns := [], List := [] }

/-- The decoding of the groups one after the other: a retained group whose
class identifier is an index of the table gives a detection, one whose class
identifier is not ends the call with a panic. -/
def decodeGroups (D : Detector) (img : D.Mat) (classes : List String) :
    List Group → DetectRsp → Outcome DetectRsp
  | [], rsp => Outcome.returned rsp
  | g :: gs, rsp =>
    if g.retained then
      if g.inTable D classes then
        decodeGroups D img classes gs { List := rsp.List ++ [g.toObj D img classes] }
      else Outcome.panicked
    else decodeGroups D img classes gs rsp

/-- A group for examples: class 1 at confidence 1/2. -/
def toyGroupOne : Group :=
  { imageId := Float32.fin 0, classId := Float32.fin 1, confidence := Float32.fin (mkRat 1 2),
    left := Float32.fin (mkRat 1 4), top := Float32.fin (mkRat 1 2),
    right := Float32.fin (mkRat 1 2), bottom := Float32.fin (mkRat 3 4) }

/-- A group for examples: class 7 at a confidence that is the `float32` value
of the constant 0.3. -/
def toyGroupLow : Group :=
  { imageId := Float32.fin 0, classId := Float32.fin 7, confidence := Float32.roundFrac 3 10,
    left := Float32.fin 0, top := Float32.fin 0, right := Float32.fin 1,
    bottom := Float32.fin 1 }

/-- A group for examples: class 7, of which the table of three lines knows
nothing, at confidence 1/2. -/
def toyGroupSeven : Group :=
  { imageId := Float32.fin 0, classId := Float32.fin 7, confidence := Float32.fin (mkRat 1 2),
    left := Float32.fin 0, top := Float32.fin 0, right := Float32.fin 1,
    bottom := Float32.fin 1 }

/-- The three groups for examples. -/
def toyGroups : List Group := [toyGroupOne, toyGroupLow, toyGroupSeven]

/-- The state at the end of the loop of a call. -/
def finalState (E : Vision) (req : RecognizeReq) (rsp : RecognizeRsp)
    (stdin : List (Option ℤ)) : RecState E :=
  faceLoop E req (startState E req rsp stdin) 0
    (E.DetectMultiScale (cascadeFile req) (E.IMRead req.Input))

/-- The face on which an effect of the body of the loop is. -/
def Effect.face : Effect → Option ℕ
  | Effect.Predict i _ => some i
  | Effect.Scanln i _ => some i
  | Effect.Train i _ => some i
  | Effect.Update i _ => some i
  | Effect.BreakTrain i => some i
  | _ => none

/-- Every effect of the trace that is on a face is on a face of index below
`n`. -/
def FacesBelow (n : ℕ) (tr : List Effect) : Prop :=
  ∀ e ∈ tr, ∀ k, e.face = some k → k < n

/-- What one effect does to the label of face `j`: a prediction for that face
puts the predicted label in it, a scan on that face that stores a reply puts
the reply in it, and nothing else changes it. -/
def labelStep (j : ℕ) (l : ℤ) : Effect → ℤ
  | Effect.Predict k p => if k = j then p.Label else l
  | Effect.Scanln k (some v) => if k = j then v else l
  | _ => l

/-- The label with which face `j` ends its step, read off the trace: zero,
then the label that the recognizer predicted for the face if it was asked,
then the reply of the operator if a scan on the face stored one. -/
def labelOf (j : ℕ) (tr : List Effect) : ℤ := tr.foldl (labelStep j) 0

/-- The state of an observer of the trace: whether the model is empty, the face
and the label of the prediction when the effect just before was one, and the
effect that has to come next, if any. -/
structure Watch where
  empty : Bool
  predicted : Option (ℕ × ℤ)
  due : Option Effect
deriving DecidableEq

/-- The observer before the first effect of a call: the model is new. -/
def Watch.start : Watch := { empty := true, predicted := none, due := none }

/-- The label in `obj.Label` when face `j` is scanned, for the observer: the
label of the prediction made just before for that face, and zero without
one. -/
def Watch.labelBefore (w : Watch) (j : ℕ) : ℤ :=
  if w.empty then 0
  else
    match w.predicted with
    | some (k, l) => if k = j then l else 0
    | none => 0

/-- The effect that has to follow a scan on face `j` that left the label `l`:
`Train` on an empty model and `Update` on another one when the label is
positive, `break train.` when it is -1, and no particular effect otherwise. -/
def Watch.dueAfterScan (w : Watch) (j : ℕ) (l : ℤ) : Option Effect :=
  if 0 < l then some (if w.empty then Effect.Train j l else Effect.Update j l)
  else if l = -1 then some (Effect.BreakTrain j)
  else none

/-- The observer after one more effect, `none` when the effect is not one that
may come: an effect is due and another one comes, an application or a break
comes that is not due, or a prediction is asked of an empty model. -/
def Watch.after (w : Watch) : Effect → Option Watch
  | Effect.LoadFile _ =>
    if w.due = none then some { empty := false, predicted := none, due := none } else none
  | Effect.Predict j p =>
    if w.due = none ∧ w.empty = false then
      some { empty := false, predicted := some (j, p.Label), due := none }
    else none
  | Effect.Scanln j r =>
    if w.due = none then
      some { empty := w.empty, predicted := none,
             due := w.dueAfterScan j (r.getD (w.labelBefore j)) }
    else none
  | Effect.Train j l =>
    if w.due = some (Effect.Train j l) then
      some { empty := false, predicted := none, due := none }
    else none
  | Effect.Update j l =>
    if w.due = some (Effect.Update j l) then
      some { empty := w.empty, predicted := none, due := none }
    else none
  | Effect.BreakTrain j =>
    if w.due = some (Effect.BreakTrain j) then
      some { empty := w.empty, predicted := none, due := none }
    else none
  | Effect.SaveFile _ =>
    if w.due = none then some { empty := w.empty, predicted := none, due := none } else none

/-- The observer after a trace, `none` when the trace is not one that may
come. -/
def watch : Watch → List Effect → Option Watch
  | w, [] => some w
  | w, e :: t => (w.after e).bind (fun w1 => watch w1 t)

/-- The labels of the entries `objs`, entry `j` being the one of face `j`, are
those with which the faces end their steps according to the trace. -/
def LabelsFrom (tr : List Effect) (objs : List RecognizeObj) : Prop :=
  ∀ j o, objs[j]? = some o → o.Label = labelOf j tr

/-- Every scan of the trace is on a face whose label is still zero, or comes
right after the prediction of that face. -/
def ScanFresh (tr : List Effect) : Prop :=
  ∀ pre j r post, tr = pre ++ Effect.Scanln j r :: post →
    labelOf j pre = 0 ∨ ∃ pre2 p, pre = pre2 ++ [Effect.Predict j p]

/-- The reply of an effect that is a scan. -/
def Effect.reply : Effect → Option (Option ℤ)
  | Effect.Scanln _ r => some r
  | _ => none

/-- The replies of the scans of a trace, in their order. -/
def scanReplies (tr : List Effect) : List (Option ℤ) := tr.filterMap Effect.reply

/-! ## The body of the loop, case by case -/

theorem Scanln_some {stdin : List (Option ℤ)} {l v : ℤ}
    (h : (Scanln stdin l).reply = some v) : (Scanln stdin l).label = v := by
  unfold Scanln at *
  split at h <;> simp_all

theorem predictObj_rect (E : Vision) (b : Bool) (m : E.Model) (rect : Rectangle)
    (gray : E.Mat) : (predictObj E b m rect gray).rect = rect := by
  unfold predictObj RecognizeObj.rect
  simp only []
  split_ifs <;> rfl

theorem faceLabeled_rect (E : Vision) (s : RecState E) (rect : Rectangle) :
    (faceLabeled E s rect).rect = rect := by
  have := predictObj_rect E s.isFirst s.faceRecognizer rect (faceGray E s rect)
  simpa [faceLabeled, facePredicted, RecognizeObj.rect] using this

/-- The five ways through the body of the loop. -/
theorem faceStep_cases (E : Vision) (req : RecognizeReq) (s : RecState E) (i : ℕ)
    (rect : Rectangle) :
    ((needsTraining (facePredicted E s rect) && req.Ask) = false ∧
      faceStep E req s i rect =
        ({ s with
            trace := s.trace ++ predictEvents s.isFirst i (facePrediction E s rect)
            rsp := route s.rsp (facePredicted E s rect)
            img := E.Rectangle s.img rect }, false)) ∨
    ((needsTraining (facePredicted E s rect) && req.Ask) = true ∧
      0 < (faceScan E s rect).label ∧ s.isFirst = true ∧
      faceStep E req s i rect =
        ({ img := E.Rectangle s.img rect
           faceRecognizer :=
             E.Train s.faceRecognizer [faceGray E s rect] [(faceScan E s rect).label]
           isFirst := false
           trainCount := s.trainCount + 1
           rsp := route s.rsp (faceLabeled E s rect)
           stdin := (faceScan E s rect).rest
           trace := s.trace ++ [Effect.Scanln i (faceScan E s rect).reply,
             Effect.Train i (faceScan E s rect).label] }, false)) ∨
    ((needsTraining (facePredicted E s rect) && req.Ask) = true ∧
      0 < (faceScan E s rect).label ∧ s.isFirst = false ∧
      faceStep E req s i rect =
        ({ img := E.Rectangle s.img rect
           faceRecognizer :=
             E.Update s.faceRecognizer [faceGray E s rect] [(faceScan E s rect).label]
           isFirst := false
           trainCount := s.trainCount + 1
           rsp := route s.rsp (faceLabeled E s rect)
           stdin := (faceScan E s rect).rest
           trace := s.trace ++ [Effect.Predict i (facePrediction E s rect),
             Effect.Scanln i (faceScan E s rect).reply,
             Effect.Update i (faceScan E s rect).label] }, false)) ∨
    ((needsTraining (facePredicted E s rect) && req.Ask) = true ∧
      (faceScan E s rect).label = -1 ∧
      faceStep E req s i rect =
        ({ s with
            stdin := (faceScan E s rect).rest
            trace := s.trace ++ (predictEvents s.isFirst i (facePrediction E s rect) ++
              [Effect.Scanln i (faceScan E s rect).reply, Effect.BreakTrain i]) }, true)) ∨
    ((needsTraining (facePredicted E s rect) && req.Ask) = true ∧
      (faceScan E s rect).label ≤ 0 ∧ (faceScan E s rect).label ≠ -1 ∧
      faceStep E req s i rect =
        ({ s with
            stdin := (faceScan E s rect).rest
            trace := s.trace ++ (predictEvents s.isFirst i (facePrediction E s rect) ++
              [Effect.Scanln i (faceScan E s rect).reply])
            rsp := route s.rsp (faceLabeled E s rect)
            img := E.Rectangle s.img rect }, false)) := by
  obtain ⟨img, m, isFirst, tc, rsp, stdin, trace⟩ := s
  cases isFirst
  all_goals
    simp only [faceStep, askLabel, faceLabeled, faceScan, facePredicted, faceGray,
      facePrediction, predictEvents, Bool.not_false, Bool.not_true, if_true, if_false,
      Bool.false_eq_true]
    generalize predictObj E _ m rect (E.CvtColor (E.Region img rect)) = obj0
    generalize Scanln stdin obj0.Label = sc
    by_cases hn : (needsTraining obj0 && req.Ask) = true
    · by_cases hpos : 0 < sc.label
      · simp [hn, hpos]
      · by_cases hm : sc.label = -1
        · simp [hn, hpos, hm]
        · have hle : sc.label ≤ 0 := by omega
          simp [hn, hpos, hm, hle]
    · simp [hn]

/-! ## The loop over the faces -/

/-- A rule for the loop: an invariant `Inv`, indexed by the faces already
done, that every body ending without `break` keeps, gives `Post` at the end of
the loop when both a body ending with `break` and the end of the faces do. -/
theorem faceLoop_rule (E : Vision) (req : RecognizeReq) (all : List Rectangle)
    (Inv : List Rectangle → RecState E → Prop) (Post : RecState E → Prop)
    (hcont : ∀ pre rect post s, pre ++ rect :: post = all → Inv pre s →
      (faceStep E req s pre.length rect).2 = false →
      Inv (pre ++ [rect]) (faceStep E req s pre.length rect).1)
    (hbrk : ∀ pre rect post s, pre ++ rect :: post = all → Inv pre s →
      (faceStep E req s pre.length rect).2 = true →
      Post (faceStep E req s pre.length rect).1)
    (hend : ∀ s, Inv all s → Post s) :
    ∀ (post pre : List Rectangle) (s : RecState E), pre ++ post = all → Inv pre s →
      Post (faceLoop E req s pre.length post) := by
  intro post
  induction post with
  | nil =>
    intro pre s h hinv
    simp at h
    subst h
    exact hend s hinv
  | cons rect post ih =>
    intro pre s h hinv
    simp only [faceLoop]
    cases hb : (faceStep E req s pre.length rect).2 with
    | true =>
      simp only [if_true]
      exact hbrk pre rect post s h hinv hb
    | false =>
      have := ih (pre ++ [rect]) (faceStep E req s pre.length rect).1 (by simpa using h)
        (hcont pre rect post s h hinv hb)
      simpa using this

/-- The rule for an invariant that does not depend on the position. -/
theorem faceLoop_invariant (E : Vision) (req : RecognizeReq) (Inv : RecState E → Prop)
    (hstep : ∀ s i rect, Inv s → Inv (faceStep E req s i rect).1)
    (s : RecState E) (i : ℕ) (rects : List Rectangle) (h : Inv s) :
    Inv (faceLoop E req s i rects) := by
  induction rects generalizing s i with
  | nil => simpa [faceLoop] using h
  | cons rect rects ih =>
    simp only [faceLoop]
    split_ifs
    · exact hstep s i rect h
    · exact ih _ _ (hstep s i rect h)

theorem Recognize_unreadable (E : Vision) (req : RecognizeReq) (rsp : RecognizeRsp)
    (stdin : List (Option ℤ)) (h : E.Empty (E.IMRead req.Input) = true) :
    Recognize E req rsp stdin = { rsp := rsp, stdin := stdin, trace := [] } := by
  simp [Recognize, h]

theorem Recognize_readable (E : Vision) (req : RecognizeReq) (rsp : RecognizeRsp)
    (stdin : List (Option ℤ)) (h : E.Empty (E.IMRead req.Input) = false) :
    (Recognize E req rsp stdin).rsp = (finalState E req rsp stdin).rsp ∧
    (Recognize E req rsp stdin).trace =
      (finalState E req rsp stdin).trace ++
        (if 0 < (finalState E req rsp stdin).trainCount
          then [Effect.SaveFile (recognizedFile req)] else []) := by
  simp only [Recognize, finalState, h, Bool.false_eq_true, if_false]
  split_ifs <;> simp

/-! ## The life cycle of the model -/

theorem lifeRun_append (e : Bool) (a b : List Effect) :
    lifeRun e (a ++ b) = (lifeRun e a).bind (fun e1 => lifeRun e1 b) := by
  induction a generalizing e with
  | nil => simp [lifeRun]
  | cons x a ih => cases x <;> cases e <;> simp [lifeRun, ih]

theorem faceStep_life (E : Vision) (req : RecognizeReq) (s : RecState E) (i : ℕ)
    (rect : Rectangle) (h : lifeRun true s.trace = some s.isFirst) :
    lifeRun true (faceStep E req s i rect).1.trace =
      some (faceStep E req s i rect).1.isFirst := by
  rcases faceStep_cases E req s i rect with ⟨_, h2⟩ | ⟨_, _, hf, h2⟩ | ⟨_, _, hf, h2⟩ |
    ⟨_, _, h2⟩ | ⟨_, _, _, h2⟩ <;> rw [h2] <;> cases hf : s.isFirst <;>
    simp_all [lifeRun_append, lifeRun, predictEvents]

theorem startState_life (E : Vision) (req : RecognizeReq) (rsp : RecognizeRsp)
    (stdin : List (Option ℤ)) :
    lifeRun true (startState E req rsp stdin).trace =
      some (startState E req rsp stdin).isFirst := by
  unfold startState
  simp only []
  split_ifs <;> simp [lifeRun]

theorem Recognize_life (E : Vision) (req : RecognizeReq) (rsp : RecognizeRsp)
    (stdin : List (Option ℤ)) :
    ∃ e, lifeRun true (Recognize E req rsp stdin).trace = some e := by
  cases h : E.Empty (E.IMRead req.Input) with
  | true => exact ⟨true, by simp [Recognize_unreadable E req rsp stdin h, lifeRun]⟩
  | false =>
    have hl : lifeRun true (finalState E req rsp stdin).trace =
        some (finalState E req rsp stdin).isFirst :=
      faceLoop_invariant E req (fun s => lifeRun true s.trace = some s.isFirst)
        (fun s i rect hs => faceStep_life E req s i rect hs) _ _ _
        (startState_life E req rsp stdin)
    refine ⟨(finalState E req rsp stdin).isFirst, ?_⟩
    rw [(Recognize_readable E req rsp stdin h).2, lifeRun_append, hl]
    split_ifs <;> simp [lifeRun]

theorem lifeRun_empty {e e1 : Bool} {tr : List Effect} (h : lifeRun e tr = some e1) :
    e1 = (e && modelEmpty tr) := by
  induction tr generalizing e with
  | nil => simpa [lifeRun, modelEmpty, eq_comm] using h
  | cons x tr ih =>
    cases x <;> cases e <;> simp [lifeRun] at h <;>
      simpa [modelEmpty, Effect.fills] using ih h

theorem lifeRun_update {e e2 : Bool} {pre post : List Effect} {i : ℕ} {l : ℤ}
    (h : lifeRun e (pre ++ Effect.Update i l :: post) = some e2) :
    (e && modelEmpty pre) = false := by
  rw [lifeRun_append] at h
  cases h1 : lifeRun e pre with
  | none => simp [h1] at h
  | some e1 =>
    rw [h1] at h
    have := lifeRun_empty h1
    cases e1
    · exact this.symm
    · simp [lifeRun] at h

theorem lifeRun_train {e e2 : Bool} {pre post : List Effect} {i : ℕ} {l : ℤ}
    (h : lifeRun e (pre ++ Effect.Train i l :: post) = some e2) :
    (e && modelEmpty pre) = true := by
  rw [lifeRun_append] at h
  cases h1 : lifeRun e pre with
  | none => simp [h1] at h
  | some e1 =>
    rw [h1] at h
    have := lifeRun_empty h1
    cases e1
    · simp [lifeRun] at h
    · exact this.symm

theorem lifeRun_noTrain {e2 : Bool} {tr : List Effect} (h : lifeRun false tr = some e2) :
    tr.filter Effect.isTrain = [] := by
  induction tr with
  | nil => rfl
  | cons x tr ih =>
    cases x <;> simp [lifeRun] at h <;> simp [Effect.isTrain, List.filter_cons, ih h]

theorem lifeRun_trainOnce {e2 : Bool} {tr : List Effect} (h : lifeRun true tr = some e2) :
    (tr.filter Effect.isTrain).length ≤ 1 := by
  induction tr with
  | nil => simp
  | cons x tr ih =>
    cases x <;> simp [lifeRun] at h <;>
      first
      | simpa [Effect.isTrain, List.filter_cons] using ih h
      | simp [Effect.isTrain, List.filter_cons, lifeRun_noTrain h]

theorem lifeRun_predict {e e2 : Bool} {pre post : List Effect} {i : ℕ} {p : PredictResponse}
    (h : lifeRun e (pre ++ Effect.Predict i p :: post) = some e2) :
    (e && modelEmpty pre) = false := by
  rw [lifeRun_append] at h
  cases h1 : lifeRun e pre with
  | none => simp [h1] at h
  | some e1 =>
    rw [h1] at h
    have := lifeRun_empty h1
    cases e1
    · exact this.symm
    · simp [lifeRun] at h

/-! ## The response lists -/

theorem listsOf_route {rsp0 rsp : RecognizeRsp} {pre : List Rectangle} {rect : Rectangle}
    {o : RecognizeObj} (h : ListsOf rsp0 pre rsp) (ho : o.rect = rect) :
    ListsOf rsp0 (pre ++ [rect]) (route rsp o) := by
  obtain ⟨objs, h1, h2, h3⟩ := h
  refine ⟨objs ++ [o], by simp [h1, ho], ?_, ?_⟩
  · unfold Ancv.route
    split_ifs with hp <;>
      simp [knownOf, List.filter_append, RecognizeObj.positive, hp, h2, List.filter_cons]
  · unfold Ancv.route
    split_ifs with hp <;>
      simp [unknownOf, List.filter_append, RecognizeObj.positive, hp, h3, List.filter_cons]

theorem facePredicted_rect (E : Vision) (s : RecState E) (rect : Rectangle) :
    (facePredicted E s rect).rect = rect :=
  predictObj_rect E s.isFirst s.faceRecognizer rect (faceGray E s rect)

theorem mem_predictEvents (b : Bool) (i : ℕ) (p : PredictResponse) (e : Effect) :
    e ∈ predictEvents b i p ↔ b = false ∧ e = Effect.Predict i p := by
  cases b <;> simp [predictEvents]

theorem faceScan_some {E : Vision} {s : RecState E} {rect : Rectangle} {v : ℤ}
    (h : (faceScan E s rect).reply = some v) : (faceScan E s rect).label = v :=
  Scanln_some h

theorem faceLoop_lists (E : Vision) (req : RecognizeReq) (rsp0 : RecognizeRsp)
    (all : List Rectangle) (s : RecState E) (h1 : s.rsp = rsp0) (h2 : Unbroken s.trace) :
    LoopEnd rsp0 all (faceLoop E req s 0 all).rsp (faceLoop E req s 0 all).trace := by
  have key := faceLoop_rule E req all
    (fun pre s => ListsOf rsp0 pre s.rsp ∧ Unbroken s.trace)
    (fun s => LoopEnd rsp0 all s.rsp s.trace) ?_ ?_ ?_ all [] s rfl
    ⟨⟨[], by simp [h1, knownOf, unknownOf]⟩, h2⟩
  · simpa using key
  · intro pre rect post s hall ⟨hl, hu1, hu2⟩ hb
    rcases faceStep_cases E req s pre.length rect with ⟨_, h⟩ | ⟨_, hp, hf, h⟩ |
      ⟨_, hp, hf, h⟩ | ⟨_, _, h⟩ | ⟨_, hle, hne, h⟩
    · rw [h]
      refine ⟨listsOf_route hl (facePredicted_rect E s rect), ?_, ?_⟩ <;>
        intro k <;> simp [hu1 k, hu2 k, mem_predictEvents]
    · rw [h]
      refine ⟨listsOf_route hl (faceLabeled_rect E s rect), ?_, ?_⟩ <;> intro k <;>
        simp [hu1 k, hu2 k]
      intro _ hr
      have := faceScan_some hr.symm
      omega
    · rw [h]
      refine ⟨listsOf_route hl (faceLabeled_rect E s rect), ?_, ?_⟩ <;> intro k <;>
        simp [hu1 k, hu2 k]
      intro _ hr
      have := faceScan_some hr.symm
      omega
    · rw [h] at hb
      simp at hb
    · rw [h]
      refine ⟨listsOf_route hl (faceLabeled_rect E s rect), ?_, ?_⟩ <;> intro k <;>
        simp [hu1 k, hu2 k, mem_predictEvents]
      intro _ hr
      have := faceScan_some hr.symm
      omega
  · intro pre rect post s hall ⟨hl, hu1, hu2⟩ hb
    rcases faceStep_cases E req s pre.length rect with ⟨_, h⟩ | ⟨_, hp, hf, h⟩ |
      ⟨_, hp, hf, h⟩ | ⟨_, _, h⟩ | ⟨_, hle, hne, h⟩
    · rw [h] at hb; simp at hb
    · rw [h] at hb; simp at hb
    · rw [h] at hb; simp at hb
    · rw [h]
      refine ⟨pre.length, ?_, Or.inr ⟨?_, ?_, ?_, ?_⟩⟩
      · subst hall
        simpa using hl
      · subst hall
        simp
      · simp
      · intro k
        simp [hu1 k, mem_predictEvents]
      · intro k
        simp [hu2 k, mem_predictEvents]
        intro hk _
        exact hk
    · rw [h] at hb; simp at hb
  · intro s ⟨hl, hu⟩
    exact ⟨all.length, by simpa using hl, Or.inl ⟨rfl, hu⟩⟩

/-! ## Training and saving -/

theorem faceLoop_count (E : Vision) (req : RecognizeReq) (s : RecState E) (i : ℕ)
    (rects : List Rectangle) (h : s.trainCount = s.trace.countP Effect.mutates) :
    (faceLoop E req s i rects).trainCount =
      (faceLoop E req s i rects).trace.countP Effect.mutates := by
  refine faceLoop_invariant E req (fun s => s.trainCount = s.trace.countP Effect.mutates)
    ?_ s i rects h
  intro s i rect hs
  rcases faceStep_cases E req s i rect with ⟨_, h⟩ | ⟨_, hp, hf, h⟩ |
    ⟨_, hp, hf, h⟩ | ⟨_, _, h⟩ | ⟨_, hle, hne, h⟩ <;> rw [h] <;> cases s.isFirst <;>
    simp [List.countP_append, List.countP_cons, Effect.mutates, hs, predictEvents]

theorem faceLoop_noSave (E : Vision) (req : RecognizeReq) (s : RecState E) (i : ℕ)
    (rects : List Rectangle) (h : ∀ p, Effect.SaveFile p ∉ s.trace) :
    ∀ p, Effect.SaveFile p ∉ (faceLoop E req s i rects).trace := by
  refine faceLoop_invariant E req (fun s => ∀ p, Effect.SaveFile p ∉ s.trace) ?_ s i rects h
  intro s i rect hs p
  rcases faceStep_cases E req s i rect with ⟨_, h⟩ | ⟨_, hp, hf, h⟩ |
    ⟨_, hp, hf, h⟩ | ⟨_, _, h⟩ | ⟨_, hle, hne, h⟩ <;> rw [h] <;>
    simp [hs p, mem_predictEvents]

theorem appliedAfterScan_append {a b : List Effect} (ha : AppliedAfterScan a)
    (hb : AppliedAfterScan b) : AppliedAfterScan (a ++ b) := by
  intro j l h
  have h2 : (Effect.Train j l ∈ a ∨ Effect.Update j l ∈ a) ∨
      (Effect.Train j l ∈ b ∨ Effect.Update j l ∈ b) := by
    simp only [List.mem_append] at h
    tauto
  rcases h2 with h2 | h2
  · obtain ⟨h3, h4⟩ := ha j l h2
    refine ⟨h3, ?_⟩
    simp only [List.mem_append]
    tauto
  · obtain ⟨h3, h4⟩ := hb j l h2
    refine ⟨h3, ?_⟩
    simp only [List.mem_append]
    tauto

theorem positiveApplied_append {a b : List Effect} (ha : PositiveApplied a)
    (hb : PositiveApplied b) : PositiveApplied (a ++ b) := by
  intro j v hv h
  simp only [List.mem_append] at h ⊢
  rcases h with h | h
  · have := ha j v hv h
    tauto
  · have := hb j v hv h
    tauto

theorem faceLoop_appliedAfterScan (E : Vision) (req : RecognizeReq) (s : RecState E) (i : ℕ)
    (rects : List Rectangle) (h : AppliedAfterScan s.trace) :
    AppliedAfterScan (faceLoop E req s i rects).trace := by
  refine faceLoop_invariant E req (fun s => AppliedAfterScan s.trace) ?_ s i rects h
  intro s i rect hs
  rcases faceStep_cases E req s i rect with ⟨_, h⟩ | ⟨_, hp, hf, h⟩ |
    ⟨_, hp, hf, h⟩ | ⟨_, _, h⟩ | ⟨_, hle, hne, h⟩ <;> rw [h] <;> clear h <;>
    refine appliedAfterScan_append hs ?_ <;> intro j l <;> simp [mem_predictEvents]
  all_goals
    rintro rfl rfl
    refine ⟨hp, ?_⟩
    rcases hr : (faceScan E s rect).reply with _ | v
    · simp
    · simp [faceScan_some hr]

theorem faceLoop_positiveApplied (E : Vision) (req : RecognizeReq) (s : RecState E) (i : ℕ)
    (rects : List Rectangle) (h : PositiveApplied s.trace) :
    PositiveApplied (faceLoop E req s i rects).trace := by
  refine faceLoop_invariant E req (fun s => PositiveApplied s.trace) ?_ s i rects h
  intro s i rect hs
  rcases faceStep_cases E req s i rect with ⟨_, h⟩ | ⟨_, hp, hf, h⟩ |
    ⟨_, hp, hf, h⟩ | ⟨_, hm, h⟩ | ⟨_, hle, hne, h⟩ <;> rw [h] <;> clear h <;>
    refine positiveApplied_append hs ?_ <;> intro j v hv <;> simp [mem_predictEvents]
  all_goals
    intro h1 h2
    have := faceScan_some h2.symm
    omega

theorem faceLoop_appliedBefore (E : Vision) (req : RecognizeReq) (all : List Rectangle)
    (s : RecState E) (h1 : ∀ j l, Effect.Train j l ∉ s.trace ∧ Effect.Update j l ∉ s.trace)
    (h2 : ∀ k, Effect.BreakTrain k ∉ s.trace) :
    ∀ k, Effect.BreakTrain k ∈ (faceLoop E req s 0 all).trace →
      AppliedBefore k (faceLoop E req s 0 all).trace := by
  have key := faceLoop_rule E req all
    (fun pre s => AppliedBefore pre.length s.trace ∧ ∀ k, Effect.BreakTrain k ∉ s.trace)
    (fun s => ∀ k, Effect.BreakTrain k ∈ s.trace → AppliedBefore k s.trace) ?_ ?_ ?_ all [] s rfl
    ⟨fun j l h => by have := h1 j l; tauto, h2⟩
  · simpa using key
  · intro pre rect post s _ ⟨ha, hb⟩ hcont
    rcases faceStep_cases E req s pre.length rect with ⟨_, h⟩ | ⟨_, hp, hf, h⟩ |
      ⟨_, hp, hf, h⟩ | ⟨_, _, h⟩ | ⟨_, hle, hne, h⟩
    · rw [h]
      refine ⟨fun j l hj => ?_, fun k => by simp [hb k, mem_predictEvents]⟩
      have := ha j l (by simpa [mem_predictEvents] using hj)
      simp only [List.length_append, List.length_singleton]
      omega
    · rw [h]
      refine ⟨fun j l hj => ?_, fun k => by simp [hb k]⟩
      simp only [List.length_append, List.length_singleton]
      simp at hj
      rcases hj with (hj | ⟨rfl, _⟩) | hj
      · have := ha j l (Or.inl hj); omega
      · omega
      · have := ha j l (Or.inr hj); omega
    · rw [h]
      refine ⟨fun j l hj => ?_, fun k => by simp [hb k]⟩
      simp only [List.length_append, List.length_singleton]
      simp at hj
      rcases hj with hj | hj | ⟨rfl, _⟩
      · have := ha j l (Or.inl hj); omega
      · have := ha j l (Or.inr hj); omega
      · omega
    · rw [h] at hcont
      simp at hcont
    · rw [h]
      refine ⟨fun j l hj => ?_, fun k => by simp [hb k, mem_predictEvents]⟩
      have := ha j l (by simpa [mem_predictEvents] using hj)
      simp only [List.length_append, List.length_singleton]
      omega
  · intro pre rect post s _ ⟨ha, hb⟩ hbrk
    rcases faceStep_cases E req s pre.length rect with ⟨_, h⟩ | ⟨_, hp, hf, h⟩ |
      ⟨_, hp, hf, h⟩ | ⟨_, _, h⟩ | ⟨_, hle, hne, h⟩
    · rw [h] at hbrk; simp at hbrk
    · rw [h] at hbrk; simp at hbrk
    · rw [h] at hbrk; simp at hbrk
    · rw [h]
      intro k hk j l hj
      have hk2 : k = pre.length := by
        simpa [hb k, mem_predictEvents] using hk
      have := ha j l (by simpa [mem_predictEvents] using hj)
      omega
    · rw [h] at hbrk; simp at hbrk
  · intro s ⟨_, hb⟩ k hk
    exact absurd hk (hb k)

theorem faceLoop_noAsk_count (E : Vision) (req : RecognizeReq) (hask : req.Ask = false)
    (s : RecState E) (i : ℕ) (rects : List Rectangle) (h : s.trainCount = 0) :
    (faceLoop E req s i rects).trainCount = 0 := by
  refine faceLoop_invariant E req (fun s => s.trainCount = 0) ?_ s i rects h
  intro s i rect hs
  rcases faceStep_cases E req s i rect with ⟨_, h⟩ | ⟨hn, _, _, _⟩ |
    ⟨hn, _, _, _⟩ | ⟨hn, _, _⟩ | ⟨hn, _, _, _⟩
  · rw [h]
    exact hs
  all_goals simp [hask] at hn

/-! ## Lemmas on a whole call -/

theorem startState_rsp (E : Vision) (req : RecognizeReq) (rsp : RecognizeRsp)
    (stdin : List (Option ℤ)) : (startState E req rsp stdin).rsp = rsp := by
  unfold startState
  simp only []
  split_ifs <;> rfl

theorem startState_trace (E : Vision) (req : RecognizeReq) (rsp : RecognizeRsp)
    (stdin : List (Option ℤ)) (e : Effect) (h : e ∈ (startState E req rsp stdin).trace) :
    e = Effect.LoadFile (recognizedFile req) := by
  unfold startState at h
  simp only [] at h
  split_ifs at h <;> simp_all

theorem startState_count (E : Vision) (req : RecognizeReq) (rsp : RecognizeRsp)
    (stdin : List (Option ℤ)) :
    (startState E req rsp stdin).trainCount =
      (startState E req rsp stdin).trace.countP Effect.mutates := by
  unfold startState
  simp only []
  split_ifs <;> simp [Effect.mutates]

theorem startState_unbroken (E : Vision) (req : RecognizeReq) (rsp : RecognizeRsp)
    (stdin : List (Option ℤ)) : Unbroken (startState E req rsp stdin).trace := by
  constructor <;> intro k hk <;> have := startState_trace E req rsp stdin _ hk <;> simp at this

theorem Recognize_loopEnd (E : Vision) (req : RecognizeReq) (rsp : RecognizeRsp)
    (stdin : List (Option ℤ)) (himg : E.Empty (E.IMRead req.Input) = false) :
    LoopEnd rsp (E.DetectMultiScale (cascadeFile req) (E.IMRead req.Input))
      (Recognize E req rsp stdin).rsp (Recognize E req rsp stdin).trace := by
  have h := faceLoop_lists E req rsp (E.DetectMultiScale (cascadeFile req) (E.IMRead req.Input))
    (startState E req rsp stdin) (startState_rsp E req rsp stdin)
    (startState_unbroken E req rsp stdin)
  obtain ⟨hr, ht⟩ := Recognize_readable E req rsp stdin himg
  rw [hr, ht]
  obtain ⟨m, hl, hcase⟩ := h
  refine ⟨m, hl, ?_⟩
  rcases hcase with ⟨hm, hu1, hu2⟩ | ⟨hm, hb, hb2, hs⟩
  · left
    refine ⟨hm, fun k => ?_, fun k => ?_⟩
    · have := hu1 k
      split_ifs <;> simpa [finalState] using this
    · have := hu2 k
      split_ifs <;> simpa [finalState] using this
  · right
    refine ⟨hm, ?_, fun k hk => hb2 k ?_, fun k hk => hs k ?_⟩
    · simp only [List.mem_append]
      exact Or.inl hb
    · split_ifs at hk <;> simpa [finalState] using hk
    · split_ifs at hk <;> simpa [finalState] using hk

theorem knownOf_length_add (objs : List RecognizeObj) :
    (knownOf objs).length + (unknownOf objs).length = objs.length := by
  induction objs with
  | nil => rfl
  | cons o objs ih =>
    unfold knownOf unknownOf at *
    cases h : o.positive <;> simp [List.filter_cons, h] <;> omega

/-- The facts on the trace at the end of the loop of a call. -/
theorem finalState_facts (E : Vision) (req : RecognizeReq) (rsp : RecognizeRsp)
    (stdin : List (Option ℤ)) :
    (finalState E req rsp stdin).trainCount =
        (finalState E req rsp stdin).trace.countP Effect.mutates ∧
      (∀ p, Effect.SaveFile p ∉ (finalState E req rsp stdin).trace) ∧
      AppliedAfterScan (finalState E req rsp stdin).trace ∧
      PositiveApplied (finalState E req rsp stdin).trace ∧
      (∀ k, Effect.BreakTrain k ∈ (finalState E req rsp stdin).trace →
        AppliedBefore k (finalState E req rsp stdin).trace) ∧
      (req.Ask = false → (finalState E req rsp stdin).trainCount = 0) := by
  have hst := startState_trace E req rsp stdin
  refine ⟨faceLoop_count E req _ _ _ (startState_count E req rsp stdin),
    faceLoop_noSave E req _ _ _ (fun p hp => by simpa using hst _ hp),
    faceLoop_appliedAfterScan E req _ _ _ ?_, faceLoop_positiveApplied E req _ _ _ ?_,
    faceLoop_appliedBefore E req _ _ ?_ (fun k hk => by simpa using hst _ hk),
    fun hask => faceLoop_noAsk_count E req hask _ _ _ ?_⟩
  · intro j l h
    rcases h with h | h <;> have := hst _ h <;> simp at this
  · intro j v _ h
    have := hst _ h
    simp at this
  · intro j l
    constructor <;> intro h <;> have := hst _ h <;> simp at this
  · unfold startState
    simp only []
    split_ifs <;> rfl

theorem countP_mutates_pos (tr : List Effect) :
    0 < tr.countP Effect.mutates ↔ Applied tr := by
  rw [List.countP_pos_iff]
  constructor
  · rintro ⟨e, he, hm⟩
    cases e <;> simp [Effect.mutates] at hm
    · exact ⟨_, _, Or.inl he⟩
    · exact ⟨_, _, Or.inr he⟩
  · rintro ⟨j, l, h | h⟩
    · exact ⟨_, h, by simp [Effect.mutates]⟩
    · exact ⟨_, h, by simp [Effect.mutates]⟩

/-- The trace of a call is the trace of its loop, followed by one `SaveFile`
on the recognizer file exactly when the loop applied some face. -/
theorem Recognize_trace (E : Vision) (req : RecognizeReq) (rsp : RecognizeRsp)
    (stdin : List (Option ℤ)) (himg : E.Empty (E.IMRead req.Input) = false) :
    (Applied (finalState E req rsp stdin).trace ∧
      (Recognize E req rsp stdin).trace =
        (finalState E req rsp stdin).trace ++ [Effect.SaveFile (recognizedFile req)]) ∨
    (¬ Applied (finalState E req rsp stdin).trace ∧
      (Recognize E req rsp stdin).trace = (finalState E req rsp stdin).trace) := by
  obtain ⟨_, ht⟩ := Recognize_readable E req rsp stdin himg
  have hc := (finalState_facts E req rsp stdin).1
  have hp := countP_mutates_pos (finalState E req rsp stdin).trace
  rw [ht, hc]
  by_cases ha : Applied (finalState E req rsp stdin).trace
  · left
    exact ⟨ha, by rw [if_pos (hp.2 ha)]⟩
  · right
    exact ⟨ha, by rw [if_neg (fun h => ha (hp.1 h))]; simp⟩

theorem Applied_snoc_save (body : List Effect) (p : String) :
    Applied (body ++ [Effect.SaveFile p]) ↔ Applied body := by
  unfold Applied
  simp

theorem faceLoop_noAsk (E : Vision) (req : RecognizeReq) (hask : req.Ask = false)
    (rects : List Rectangle) :
    ∀ (s : RecState E) (i : ℕ), s.isFirst = false →
      (faceLoop E req s i rects).rsp.List =
          s.rsp.List ++ knownOf (predictAll E s.faceRecognizer s.img rects) ∧
        (faceLoop E req s i rects).rsp.Unknowns =
          s.rsp.Unknowns ++ unknownOf (predictAll E s.faceRecognizer s.img rects) := by
  induction rects with
  | nil =>
    intro s i _
    simp [faceLoop, predictAll, knownOf, unknownOf]
  | cons rect rects ih =>
    intro s i hf
    rcases faceStep_cases E req s i rect with ⟨_, h⟩ | ⟨hn, _, _, _⟩ |
      ⟨hn, _, _, _⟩ | ⟨hn, _, _⟩ | ⟨hn, _, _, _⟩
    · simp only [faceLoop, h, Bool.false_eq_true, if_false]
      obtain ⟨h1, h2⟩ := ih _ (i + 1) (show ({ s with
        trace := s.trace ++ predictEvents s.isFirst i (facePrediction E s rect)
        rsp := route s.rsp (facePredicted E s rect)
        img := E.Rectangle s.img rect } : RecState E).isFirst = false from hf)
      rw [h1, h2]
      simp only [predictAll, facePredicted, faceGray, hf]
      unfold Ancv.route
      split_ifs with hp <;>
        simp [knownOf, unknownOf, List.filter_cons, RecognizeObj.positive, hp]
    all_goals simp [hask] at hn

theorem predictObj_ratioOk (E : Vision) (m : E.Model) (rect : Rectangle) (gray : E.Mat) :
    RatioOk (predictObj E false m rect gray) := by
  unfold RatioOk predictObj
  simp only [Bool.not_false, if_true]
  split_ifs with h <;> simp [h]

theorem faceLoop_ratioOk (E : Vision) (req : RecognizeReq) (rsp0 : RecognizeRsp)
    (s : RecState E) (i : ℕ) (rects : List Rectangle) (hf : s.isFirst = false)
    (hs : ∀ o, o ∈ s.rsp.List ∨ o ∈ s.rsp.Unknowns →
      (o ∈ rsp0.List ∨ o ∈ rsp0.Unknowns) ∨ RatioOk o) :
    ∀ o, o ∈ (faceLoop E req s i rects).rsp.List ∨ o ∈ (faceLoop E req s i rects).rsp.Unknowns →
      (o ∈ rsp0.List ∨ o ∈ rsp0.Unknowns) ∨ RatioOk o := by
  have key := faceLoop_invariant E req
    (fun s => s.isFirst = false ∧ ∀ o, o ∈ s.rsp.List ∨ o ∈ s.rsp.Unknowns →
      (o ∈ rsp0.List ∨ o ∈ rsp0.Unknowns) ∨ RatioOk o) ?_ s i rects ⟨hf, hs⟩
  · exact key.2
  · intro s i rect ⟨hf, hs⟩
    have hp : RatioOk (facePredicted E s rect) := by
      unfold facePredicted
      rw [hf]
      exact predictObj_ratioOk E _ _ _
    have hl : RatioOk (faceLabeled E s rect) := hp
    have hroute : ∀ o1, RatioOk o1 → ∀ o, o ∈ (route s.rsp o1).List ∨ o ∈ (route s.rsp o1).Unknowns →
        (o ∈ rsp0.List ∨ o ∈ rsp0.Unknowns) ∨ RatioOk o := by
      intro o1 h1 o ho
      unfold Ancv.route at ho
      split_ifs at ho <;> simp at ho
      · rcases ho with (ho | ho) | ho
        · exact hs o (Or.inl ho)
        · exact Or.inr (ho ▸ h1)
        · exact hs o (Or.inr ho)
      · rcases ho with ho | ho | ho
        · exact hs o (Or.inl ho)
        · exact hs o (Or.inr ho)
        · exact Or.inr (ho ▸ h1)
    rcases faceStep_cases E req s i rect with ⟨_, h⟩ | ⟨_, _, hf2, h⟩ |
      ⟨_, _, _, h⟩ | ⟨_, _, h⟩ | ⟨_, _, _, h⟩ <;> rw [h]
    · exact ⟨hf, hroute _ hp⟩
    · exact ⟨rfl, hroute _ hl⟩
    · exact ⟨rfl, hroute _ hl⟩
    · exact ⟨hf, hs⟩
    · exact ⟨hf, hroute _ hl⟩

/-! ## The observer of the trace -/

theorem watch_append (w : Watch) (a b : List Effect) :
    watch w (a ++ b) = (watch w a).bind (fun w1 => watch w1 b) := by
  induction a generalizing w with
  | nil => simp [watch]
  | cons x a ih =>
    simp only [List.cons_append, watch]
    cases h : w.after x with
    | none => simp
    | some w1 => simp [ih]

theorem Scanln_label (stdin : List (Option ℤ)) (l : ℤ) :
    (Scanln stdin l).label = (Scanln stdin l).reply.getD l := by
  unfold Scanln
  split <;> simp

theorem facePredicted_label (E : Vision) (s : RecState E) (rect : Rectangle) :
    (facePredicted E s rect).Label =
      if s.isFirst then 0 else (facePrediction E s rect).Label := by
  unfold facePredicted predictObj facePrediction
  cases s.isFirst
  · simp only [Bool.not_false, if_true, Bool.false_eq_true, if_false]
    split_ifs <;> rfl
  · simp

theorem faceScan_label (E : Vision) (s : RecState E) (rect : Rectangle) :
    (faceScan E s rect).label =
      (faceScan E s rect).reply.getD (if s.isFirst then 0 else (facePrediction E s rect).Label) := by
  unfold faceScan
  rw [Scanln_label, facePredicted_label]

/-- The body of the loop keeps the trace one that may come, with no effect due at
its end and the observer in step with `isFirst`. -/
theorem faceStep_watch (E : Vision) (req : RecognizeReq) (s : RecState E) (i : ℕ)
    (rect : Rectangle)
    (h : ∃ pr, watch Watch.start s.trace = some { empty := s.isFirst, predicted := pr, due := none }) :
    ∃ pr, watch Watch.start (faceStep E req s i rect).1.trace =
      some { empty := (faceStep E req s i rect).1.isFirst, predicted := pr, due := none } := by
  obtain ⟨pr, h⟩ := h
  have hl := faceScan_label E s rect
  rcases faceStep_cases E req s i rect with ⟨_, h2⟩ | ⟨_, hp, hf, h2⟩ | ⟨_, hp, hf, h2⟩ |
    ⟨_, hm, h2⟩ | ⟨_, hle, hne, h2⟩ <;> rw [h2] <;> simp only [watch_append, h, Option.some_bind]
  · cases hf : s.isFirst <;>
      simp [predictEvents, watch, Watch.after]
  · simp only [hf, if_true] at hl
    simp only [watch, Watch.after, Watch.labelBefore, hf, if_true, Option.some_bind, ← hl]
    simp [Watch.dueAfterScan, hp]
  · simp only [hf, Bool.false_eq_true, if_false] at hl
    simp only [watch, Watch.after, Watch.labelBefore, hf, if_true, Option.some_bind,
      Bool.false_eq_true, if_false, and_self, ← hl]
    simp [Watch.dueAfterScan, hp]
  · have hnp : ¬ 0 < (faceScan E s rect).label := by omega
    cases hf : s.isFirst
    · simp only [hf, Bool.false_eq_true, if_false] at hl
      simp only [predictEvents, watch, Watch.after, Watch.labelBefore, if_true, Option.some_bind,
        Bool.false_eq_true, if_false, and_self, List.cons_append, List.nil_append, ← hl]
      simp [Watch.dueAfterScan, hnp, hm]
    · simp only [hf, if_true] at hl
      simp only [predictEvents, watch, Watch.after, Watch.labelBefore, if_true, Option.some_bind,
        List.nil_append, ← hl]
      simp [Watch.dueAfterScan, hnp, hm]
  · have hnp : ¬ 0 < (faceScan E s rect).label := by omega
    cases hf : s.isFirst
    · simp only [hf, Bool.false_eq_true, if_false] at hl
      simp only [predictEvents, watch, Watch.after, Watch.labelBefore, if_true, Option.some_bind,
        Bool.false_eq_true, if_false, and_self, List.cons_append, List.nil_append, ← hl]
      simp [Watch.dueAfterScan, hnp, hne]
    · simp only [hf, if_true] at hl
      simp only [predictEvents, watch, Watch.after, Watch.labelBefore, if_true, Option.some_bind,
        List.nil_append, ← hl]
      simp [Watch.dueAfterScan, hnp, hne]

theorem after_empty {w w1 : Watch} {x : Effect} (h : w.after x = some w1) :
    w1.empty = (w.empty && !x.fills) := by
  cases x <;> simp only [Watch.after] at h <;> split_ifs at h with hc <;>
    simp only [Option.some.injEq] at h <;> subst h <;> simp [Effect.fills]
  exact hc.2

theorem watch_empty {w w1 : Watch} {tr : List Effect} (h : watch w tr = some w1) :
    w1.empty = (w.empty && modelEmpty tr) := by
  induction tr generalizing w with
  | nil =>
    simp only [watch, Option.some.injEq] at h
    simp [← h, modelEmpty]
  | cons x tr ih =>
    simp only [watch] at h
    cases hx : w.after x with
    | none => simp [hx] at h
    | some w2 =>
      rw [hx] at h
      rw [ih h, after_empty hx]
      simp [modelEmpty, Bool.and_assoc]

theorem after_due {w w1 : Watch} {x y : Effect} (hd : w.due = some x)
    (h : w.after y = some w1) : y = x := by
  cases y <;> simp only [Watch.after] at h <;> split_ifs at h with h2 <;>
    rw [hd] at h2 <;> simp at h2
  all_goals exact h2.symm

theorem watch_due_next {w wf : Watch} {x : Effect} {post : List Effect}
    (hd : w.due = some x) (h : watch w post = some wf) (hf : wf.due = none) :
    ∃ post1, post = x :: post1 := by
  cases post with
  | nil =>
    simp only [watch, Option.some.injEq] at h
    rw [← h, hd] at hf
    simp at hf
  | cons y post1 =>
    simp only [watch] at h
    cases hy : w.after y with
    | none => simp [hy] at h
    | some w1 => exact ⟨post1, by rw [after_due hd hy]⟩

/-- A positive reply is followed at once by its application: `Train` when the
model is empty, `Update` otherwise. -/
theorem watch_positive_reply {wf : Watch} {pre post : List Effect} {j : ℕ} {v : ℤ}
    (h : watch Watch.start (pre ++ Effect.Scanln j (some v) :: post) = some wf)
    (hf : wf.due = none) (hv : 0 < v) :
    ∃ post1, post =
      (if modelEmpty pre then Effect.Train j v else Effect.Update j v) :: post1 := by
  rw [watch_append] at h
  cases h1 : watch Watch.start pre with
  | none => simp [h1] at h
  | some w1 =>
    have he := watch_empty h1
    simp only [Watch.start, Bool.true_and] at he
    simp only [h1, Option.some_bind, watch, Watch.after] at h
    split_ifs at h with hd
    · simp only [Option.some_bind, Option.getD_some] at h
      refine watch_due_next ?_ h hf
      simp [Watch.dueAfterScan, hv, he]
    · simp at h

/-- A failed scan on a face just predicted with a positive label is followed at
once by an `Update` with the predicted label. -/
theorem watch_failed_scan {wf : Watch} {pre post : List Effect} {j : ℕ} {p : PredictResponse}
    (h : watch Watch.start (pre ++ Effect.Predict j p :: Effect.Scanln j none :: post) = some wf)
    (hf : wf.due = none) (hp : 0 < p.Label) :
    ∃ post1, post = Effect.Update j p.Label :: post1 := by
  rw [watch_append] at h
  cases h1 : watch Watch.start pre with
  | none => simp [h1] at h
  | some w1 =>
    simp only [h1, Option.some_bind, watch, Watch.after] at h
    split_ifs at h with hd
    · simp only [Option.some_bind, if_true] at h
      refine watch_due_next ?_ h hf
      simp [Watch.dueAfterScan, Watch.labelBefore, hp]
    · simp at h

theorem watch_snoc {w w1 : Watch} {pre : List Effect} {y : Effect}
    (h : watch w (pre ++ [y]) = some w1) :
    ∃ w0, watch w pre = some w0 ∧ w0.after y = some w1 := by
  rw [watch_append] at h
  cases h0 : watch w pre with
  | none => simp [h0] at h
  | some w0 =>
    simp only [h0, Option.some_bind, watch] at h
    cases hy : w0.after y with
    | none => simp [hy] at h
    | some w2 =>
      simp only [hy, Option.some_bind, Option.some.injEq] at h
      exact ⟨w0, rfl, h ▸ hy⟩

/-- Where a prediction kept by the observer comes from: the effect just
before. -/
theorem watch_predicted_origin {w w1 : Watch} {pre : List Effect} {j : ℕ} {l : ℤ}
    (h : watch w pre = some w1) (hw : w.predicted = none) (h1 : w1.predicted = some (j, l)) :
    ∃ pre1 p, pre = pre1 ++ [Effect.Predict j p] ∧ p.Label = l := by
  rcases List.eq_nil_or_concat pre with rfl | ⟨pre1, y, hpre⟩
  · simp only [watch, Option.some.injEq] at h
    rw [← h, hw] at h1
    simp at h1
  · rw [List.concat_eq_append] at hpre
    subst hpre
    obtain ⟨w0, _, hy⟩ := watch_snoc h
    cases y <;> simp only [Watch.after] at hy <;> split_ifs at hy <;>
      simp only [Option.some.injEq] at hy <;> subst hy <;> simp at h1
    exact ⟨pre1, _, by rw [h1.1], h1.2⟩

/-- Where an effect that is due comes from: the scan just before, which left a
label that calls for it. -/
theorem watch_due_origin {w w1 : Watch} {pre : List Effect} {x : Effect}
    (h : watch w pre = some w1) (hw : w.due = none) (h1 : w1.due = some x) :
    ∃ pre1 k r w0, pre = pre1 ++ [Effect.Scanln k r] ∧ watch w pre1 = some w0 ∧
      w0.dueAfterScan k (r.getD (w0.labelBefore k)) = some x := by
  rcases List.eq_nil_or_concat pre with rfl | ⟨pre1, y, hpre⟩
  · simp only [watch, Option.some.injEq] at h
    rw [← h, hw] at h1
    simp at h1
  · rw [List.concat_eq_append] at hpre
    subst hpre
    obtain ⟨w0, h0, hy⟩ := watch_snoc h
    cases y <;> simp only [Watch.after] at hy <;> split_ifs at hy <;>
      simp only [Option.some.injEq] at hy <;> subst hy <;> simp at h1
    exact ⟨pre1, _, _, w0, rfl, h0, h1⟩

/-- An application comes at once after a scan on its face that left its label,
a positive one: the reply that the scan stored or, after a failed scan, the
label of the prediction made just before the scan. -/
theorem watch_applied_origin {wf : Watch} {pre post : List Effect} {x : Effect} {j : ℕ} {l : ℤ}
    (h : watch Watch.start (pre ++ x :: post) = some wf)
    (hx : x = Effect.Train j l ∨ x = Effect.Update j l) :
    0 < l ∧ ∃ pre1 r, pre = pre1 ++ [Effect.Scanln j r] ∧
      (r = some l ∨ (r = none ∧ ∃ pre2 p, pre1 = pre2 ++ [Effect.Predict j p] ∧ p.Label = l)) := by
  rw [watch_append] at h
  cases h1 : watch Watch.start pre with
  | none => simp [h1] at h
  | some w1 =>
    simp only [h1, Option.some_bind, watch] at h
    have hdue : w1.due = some x := by
      cases hy : w1.after x with
      | none => simp [hy] at h
      | some w2 =>
        rcases hx with rfl | rfl <;> simp only [Watch.after] at hy <;> split_ifs at hy with hd <;>
          exact hd
    obtain ⟨pre1, k, r, w0, rfl, h0, hds⟩ := watch_due_origin h1 rfl hdue
    have hlab : 0 < l ∧ k = j ∧ r.getD (w0.labelBefore k) = l := by
      unfold Watch.dueAfterScan at hds
      by_cases hpos : 0 < r.getD (w0.labelBefore k)
      · rw [if_pos hpos] at hds
        rcases hx with rfl | rfl <;> cases he : w0.empty <;> simp [he] at hds <;>
          exact ⟨hds.2 ▸ hpos, hds.1, hds.2⟩
      · rw [if_neg hpos] at hds
        rcases hx with rfl | rfl <;> split_ifs at hds <;> simp at hds
    obtain ⟨hpos, rfl, hl⟩ := hlab
    refine ⟨hpos, pre1, r, rfl, ?_⟩
    cases r with
    | some v =>
      left
      simpa using hl
    | none =>
      right
      refine ⟨rfl, ?_⟩
      simp only [Option.getD_none] at hl
      unfold Watch.labelBefore at hl
      split_ifs at hl
      · omega
      · split at hl
        · rename_i k1 l1 hpr
          split_ifs at hl with hk
          · subst hk
            subst hl
            exact watch_predicted_origin h0 rfl hpr
          · omega
        · omega

theorem startState_watch (E : Vision) (req : RecognizeReq) (rsp : RecognizeRsp)
    (stdin : List (Option ℤ)) :
    ∃ pr, watch Watch.start (startState E req rsp stdin).trace =
      some { empty := (startState E req rsp stdin).isFirst, predicted := pr, due := none } := by
  unfold startState
  simp only []
  split_ifs <;> exact ⟨none, by simp [watch, Watch.after, Watch.start]⟩

/-- The trace of a call is one that may come, with no effect due at its end. -/
theorem Recognize_watch (E : Vision) (req : RecognizeReq) (rsp : RecognizeRsp)
    (stdin : List (Option ℤ)) :
    ∃ wf, watch Watch.start (Recognize E req rsp stdin).trace = some wf ∧ wf.due = none := by
  cases h : E.Empty (E.IMRead req.Input) with
  | true => exact ⟨Watch.start, by simp [Recognize_unreadable E req rsp stdin h, watch], rfl⟩
  | false =>
    obtain ⟨pr, hl⟩ := faceLoop_invariant E req
      (fun s => ∃ pr, watch Watch.start s.trace =
        some { empty := s.isFirst, predicted := pr, due := none })
      (fun s i rect hs => faceStep_watch E req s i rect hs) _ 0
      (E.DetectMultiScale (cascadeFile req) (E.IMRead req.Input))
      (startState_watch E req rsp stdin)
    rw [(Recognize_readable E req rsp stdin h).2, watch_append]
    unfold finalState
    rw [hl]
    split_ifs
    · simp only [Option.some_bind, watch, Watch.after, if_true]
      exact ⟨_, rfl, rfl⟩
    · simp only [Option.some_bind, watch]
      exact ⟨_, rfl, rfl⟩

/-! ## The labels of the entries -/

theorem labelStep_other {j : ℕ} {e : Effect} (h : e.face ≠ some j) (l : ℤ) :
    labelStep j l e = l := by
  cases e with
  | Predict k p =>
    have hk : k ≠ j := fun hk => h (by simp [Effect.face, hk])
    simp [labelStep, hk]
  | Scanln k r =>
    have hk : k ≠ j := fun hk => h (by simp [Effect.face, hk])
    cases r <;> simp [labelStep, hk]
  | _ => rfl

theorem foldl_labelStep_other {j : ℕ} {b : List Effect} (h : ∀ e ∈ b, e.face ≠ some j)
    (l : ℤ) : b.foldl (labelStep j) l = l := by
  induction b generalizing l with
  | nil => rfl
  | cons e b ih =>
    simp only [List.foldl_cons]
    rw [labelStep_other (h e (List.mem_cons_self _ _))]
    exact ih (fun e1 he1 => h e1 (List.mem_cons_of_mem _ he1)) l

theorem labelOf_append (j : ℕ) (a b : List Effect) :
    labelOf j (a ++ b) = b.foldl (labelStep j) (labelOf j a) := by
  simp [labelOf, List.foldl_append]

theorem labelOf_facesBelow {n j : ℕ} {tr : List Effect} (h : FacesBelow n tr) (hj : n ≤ j) :
    labelOf j tr = 0 := by
  unfold labelOf
  refine foldl_labelStep_other (fun e he hf => ?_) 0
  have := h e he j hf
  omega

theorem labelsFrom_snoc {tr b : List Effect} {objs : List RecognizeObj} {o : RecognizeObj}
    {n : ℕ} (hn : objs.length = n) (hb : FacesBelow n tr)
    (hblock : ∀ e ∈ b, e.face = some n) (hl : LabelsFrom tr objs)
    (ho : b.foldl (labelStep n) 0 = o.Label) : LabelsFrom (tr ++ b) (objs ++ [o]) := by
  intro j o1 hj
  rw [labelOf_append]
  by_cases hlt : j < objs.length
  · rw [List.getElem?_append_left hlt] at hj
    rw [foldl_labelStep_other (fun e he hf => ?_)]
    · exact hl j o1 hj
    · rw [hblock e he] at hf
      simp only [Option.some.injEq] at hf
      omega
  · have hge : objs.length ≤ j := by omega
    rw [List.getElem?_append_right hge] at hj
    have hj0 : j - objs.length = 0 := by
      by_contra hne
      obtain ⟨m, hm⟩ : ∃ m, j - objs.length = m + 1 := ⟨j - objs.length - 1, by omega⟩
      rw [hm] at hj
      simp at hj
    rw [hj0] at hj
    simp only [List.getElem?_cons_zero, Option.some.injEq] at hj
    have hjn : j = n := by omega
    subst hj
    subst hjn
    rw [labelOf_facesBelow hb (le_refl _)]
    exact ho.symm

theorem labelsFrom_append_other {tr b : List Effect} {objs : List RecognizeObj} {n : ℕ}
    (hn : objs.length ≤ n) (hblock : ∀ e ∈ b, e.face = some n ∨ e.face = none)
    (hl : LabelsFrom tr objs) : LabelsFrom (tr ++ b) objs := by
  intro j o1 hj
  rw [labelOf_append]
  have hlt : j < objs.length := by
    by_contra hge
    rw [List.getElem?_eq_none (by omega)] at hj
    simp at hj
  rw [foldl_labelStep_other (fun e he hf => ?_)]
  · exact hl j o1 hj
  · rcases hblock e he with h1 | h1 <;> rw [h1] at hf <;> simp at hf
    omega

theorem facesBelow_append {n : ℕ} {tr b : List Effect} (hb : FacesBelow n tr)
    (hblock : ∀ e ∈ b, e.face = some n) : FacesBelow (n + 1) (tr ++ b) := by
  intro e he k hk
  rcases List.mem_append.mp he with h | h
  · have := hb e h k hk
    omega
  · rw [hblock e h] at hk
    simp only [Option.some.injEq] at hk
    omega

/-- The entries of the faces, with their labels, at the end of a loop that was
not left. -/
theorem faceLoop_entries (E : Vision) (req : RecognizeReq) (rsp0 : RecognizeRsp)
    (all : List Rectangle) (s : RecState E) (h1 : s.rsp = rsp0)
    (h2 : FacesBelow 0 s.trace) (h3 : ∀ k, Effect.BreakTrain k ∉ s.trace) :
    (∀ k, Effect.BreakTrain k ∉ (faceLoop E req s 0 all).trace) →
      ∃ objs : List RecognizeObj, objs.map RecognizeObj.rect = all ∧
        (faceLoop E req s 0 all).rsp.List = rsp0.List ++ knownOf objs ∧
        (faceLoop E req s 0 all).rsp.Unknowns = rsp0.Unknowns ++ unknownOf objs ∧
        LabelsFrom (faceLoop E req s 0 all).trace objs := by
  have key := faceLoop_rule E req all
    (fun pre s => (∃ objs : List RecognizeObj, objs.map RecognizeObj.rect = pre ∧
        s.rsp.List = rsp0.List ++ knownOf objs ∧
        s.rsp.Unknowns = rsp0.Unknowns ++ unknownOf objs ∧ LabelsFrom s.trace objs) ∧
      FacesBelow pre.length s.trace ∧ ∀ k, Effect.BreakTrain k ∉ s.trace)
    (fun s => (∀ k, Effect.BreakTrain k ∉ s.trace) →
      ∃ objs : List RecognizeObj, objs.map RecognizeObj.rect = all ∧
        s.rsp.List = rsp0.List ++ knownOf objs ∧
        s.rsp.Unknowns = rsp0.Unknowns ++ unknownOf objs ∧ LabelsFrom s.trace objs)
    ?_ ?_ ?_ all [] s rfl
    ⟨⟨[], by simp [h1, knownOf, unknownOf, LabelsFrom]⟩, h2, h3⟩
  · simpa using key
  · intro pre rect post s hall ⟨⟨objs, ho1, ho2, ho3, ho4⟩, hfb, hnb⟩ hb
    have hlen : objs.length = pre.length := by rw [← ho1, List.length_map]
    have hlist : ∀ o : RecognizeObj, o.rect = rect →
        (objs ++ [o]).map RecognizeObj.rect = pre ++ [rect] ∧
        (route s.rsp o).List = rsp0.List ++ knownOf (objs ++ [o]) ∧
        (route s.rsp o).Unknowns = rsp0.Unknowns ++ unknownOf (objs ++ [o]) := by
      intro o hor
      refine ⟨by simp [ho1, hor], ?_, ?_⟩
      · unfold Ancv.route
        split_ifs with hp <;>
          simp [knownOf, List.filter_append, RecognizeObj.positive, hp, ho2, List.filter_cons]
      · unfold Ancv.route
        split_ifs with hp <;>
          simp [unknownOf, List.filter_append, RecognizeObj.positive, hp, ho3, List.filter_cons]
    have hscan := faceScan_label E s rect
    have hpred := facePredicted_label E s rect
    rcases faceStep_cases E req s pre.length rect with ⟨_, h⟩ | ⟨_, hp, hf, h⟩ |
      ⟨_, hp, hf, h⟩ | ⟨_, _, h⟩ | ⟨_, hle, hne, h⟩
    · rw [h]
      obtain ⟨hm, hk, hu⟩ := hlist _ (facePredicted_rect E s rect)
      have hblock : ∀ e ∈ predictEvents s.isFirst pre.length (facePrediction E s rect),
          e.face = some pre.length := by
        intro e he
        rw [mem_predictEvents] at he
        rw [he.2]
        rfl
      refine ⟨⟨_, hm, hk, hu, labelsFrom_snoc hlen hfb hblock ho4 ?_⟩, ?_, ?_⟩
      · rw [hpred]
        cases s.isFirst <;> simp [predictEvents, labelStep]
      · simpa using facesBelow_append hfb hblock
      · intro k
        simp [hnb k, mem_predictEvents]
    · rw [h]
      obtain ⟨hm, hk, hu⟩ := hlist _ (faceLabeled_rect E s rect)
      have hblock : ∀ e ∈ [Effect.Scanln pre.length (faceScan E s rect).reply,
          Effect.Train pre.length (faceScan E s rect).label], e.face = some pre.length := by
        intro e he
        simp only [List.mem_cons, List.mem_singleton, List.not_mem_nil, or_false] at he
        rcases he with rfl | rfl <;> rfl
      refine ⟨⟨_, hm, hk, hu, labelsFrom_snoc hlen hfb hblock ho4 ?_⟩, ?_, ?_⟩
      · show _ = (faceScan E s rect).label
        rw [hscan, hf]
        cases (faceScan E s rect).reply <;> simp [labelStep]
      · simpa using facesBelow_append hfb hblock
      · intro k
        simp [hnb k]
    · rw [h]
      obtain ⟨hm, hk, hu⟩ := hlist _ (faceLabeled_rect E s rect)
      have hblock : ∀ e ∈ [Effect.Predict pre.length (facePrediction E s rect),
          Effect.Scanln pre.length (faceScan E s rect).reply,
          Effect.Update pre.length (faceScan E s rect).label], e.face = some pre.length := by
        intro e he
        simp only [List.mem_cons, List.mem_singleton, List.not_mem_nil, or_false] at he
        rcases he with rfl | rfl | rfl <;> rfl
      refine ⟨⟨_, hm, hk, hu, labelsFrom_snoc hlen hfb hblock ho4 ?_⟩, ?_, ?_⟩
      · show _ = (faceScan E s rect).label
        rw [hscan, hf]
        cases (faceScan E s rect).reply <;> simp [labelStep]
      · simpa using facesBelow_append hfb hblock
      · intro k
        simp [hnb k]
    · rw [h] at hb
      simp at hb
    · rw [h]
      obtain ⟨hm, hk, hu⟩ := hlist _ (faceLabeled_rect E s rect)
      have hblock : ∀ e ∈ predictEvents s.isFirst pre.length (facePrediction E s rect) ++
          [Effect.Scanln pre.length (faceScan E s rect).reply], e.face = some pre.length := by
        intro e he
        simp only [List.mem_append, mem_predictEvents, List.mem_singleton] at he
        rcases he with ⟨_, rfl⟩ | rfl <;> rfl
      refine ⟨⟨_, hm, hk, hu, labelsFrom_snoc hlen hfb hblock ho4 ?_⟩, ?_, ?_⟩
      · show _ = (faceScan E s rect).label
        rw [hscan]
        cases s.isFirst <;> cases (faceScan E s rect).reply <;>
          simp [predictEvents, labelStep]
      · simpa using facesBelow_append hfb hblock
      · intro k
        simp [hnb k, mem_predictEvents]
  · intro pre rect post s hall _ hb hno
    exfalso
    rcases faceStep_cases E req s pre.length rect with ⟨_, h⟩ | ⟨_, hp, hf, h⟩ |
      ⟨_, hp, hf, h⟩ | ⟨_, _, h⟩ | ⟨_, hle, hne, h⟩
    · rw [h] at hb; simp at hb
    · rw [h] at hb; simp at hb
    · rw [h] at hb; simp at hb
    · rw [h] at hno
      exact hno pre.length (by simp)
    · rw [h] at hb; simp at hb
  · intro s ⟨hob, _, _⟩ _
    exact hob

/-! ## The label a scan starts from -/

theorem scanFresh_append {tr b : List Effect} (hs : ScanFresh tr)
    (hb : ∀ b1 j r post, b = b1 ++ Effect.Scanln j r :: post →
      (b1 = [] ∧ labelOf j tr = 0) ∨ ∃ p, b1 = [Effect.Predict j p]) :
    ScanFresh (tr ++ b) := by
  intro pre j r post h
  rcases List.append_eq_append_iff.mp h with ⟨a1, h1, h2⟩ | ⟨c1, h1, h2⟩
  · rcases hb a1 j r post h2 with ⟨ha, hl⟩ | ⟨p, hp⟩
    · subst ha
      left
      rw [h1, List.append_nil]
      exact hl
    · right
      exact ⟨tr, p, by rw [h1, hp]⟩
  · cases c1 with
    | nil =>
      simp only [List.nil_append] at h2
      rcases hb [] j r post (by simpa using h2.symm) with ⟨_, hl⟩ | ⟨p, hp⟩
      · left
        rw [h1, List.append_nil] at hl
        exact hl
      · simp at hp
    | cons x c2 =>
      simp only [List.cons_append, List.cons.injEq] at h2
      obtain ⟨hx, _⟩ := h2
      subst hx
      exact hs pre j r c2 h1

theorem faceStep_scanFresh (E : Vision) (req : RecognizeReq) (s : RecState E) (n : ℕ)
    (rect : Rectangle) (hf : FacesBelow n s.trace) (hs : ScanFresh s.trace) :
    FacesBelow (n + 1) (faceStep E req s n rect).1.trace ∧
      ScanFresh (faceStep E req s n rect).1.trace := by
  have h0 := labelOf_facesBelow hf (le_refl n)
  rcases faceStep_cases E req s n rect with ⟨_, h⟩ | ⟨_, _, hfi, h⟩ |
    ⟨_, _, hfi, h⟩ | ⟨_, _, h⟩ | ⟨_, _, _, h⟩ <;> rw [h] <;> simp only []
  · constructor
    · refine facesBelow_append hf (fun e he => ?_)
      rw [mem_predictEvents] at he
      rw [he.2]
      rfl
    · refine scanFresh_append hs (fun b1 j r post hb => ?_)
      have : Effect.Scanln j r ∈ predictEvents s.isFirst n (facePrediction E s rect) := by
        rw [hb]
        simp
      rw [mem_predictEvents] at this
      simp at this
  · constructor
    · refine facesBelow_append hf (fun e he => ?_)
      simp only [List.mem_cons, List.mem_singleton, List.not_mem_nil, or_false] at he
      rcases he with rfl | rfl <;> rfl
    · refine scanFresh_append hs (fun b1 j r post hb => ?_)
      rcases b1 with _ | ⟨x, _ | ⟨y, b⟩⟩ <;> simp at hb
      left
      exact ⟨rfl, hb.1.1 ▸ h0⟩
  · constructor
    · refine facesBelow_append hf (fun e he => ?_)
      simp only [List.mem_cons, List.mem_singleton, List.not_mem_nil, or_false] at he
      rcases he with rfl | rfl | rfl <;> rfl
    · refine scanFresh_append hs (fun b1 j r post hb => ?_)
      rcases b1 with _ | ⟨x, _ | ⟨y, _ | ⟨z, b⟩⟩⟩ <;> simp at hb
      right
      exact ⟨facePrediction E s rect, by rw [← hb.1, ← hb.2.1.1]⟩
  · constructor
    · refine facesBelow_append hf (fun e he => ?_)
      simp only [List.mem_append, mem_predictEvents, List.mem_cons, List.mem_singleton,
        List.not_mem_nil, or_false] at he
      rcases he with ⟨_, rfl⟩ | rfl | rfl <;> rfl
    · refine scanFresh_append hs (fun b1 j r post hb => ?_)
      cases hfi : s.isFirst <;> rw [hfi] at hb <;> simp only [predictEvents] at hb
      · rcases b1 with _ | ⟨x, _ | ⟨y, _ | ⟨z, b⟩⟩⟩ <;> simp at hb
        right
        exact ⟨facePrediction E s rect, by rw [← hb.1, ← hb.2.1.1]⟩
      · rcases b1 with _ | ⟨x, _ | ⟨y, b⟩⟩ <;> simp at hb
        left
        exact ⟨rfl, hb.1.1 ▸ h0⟩
  · constructor
    · refine facesBelow_append hf (fun e he => ?_)
      simp only [List.mem_append, mem_predictEvents, List.mem_singleton] at he
      rcases he with ⟨_, rfl⟩ | rfl <;> rfl
    · refine scanFresh_append hs (fun b1 j r post hb => ?_)
      cases hfi : s.isFirst <;> rw [hfi] at hb <;> simp only [predictEvents] at hb
      · rcases b1 with _ | ⟨x, _ | ⟨y, b⟩⟩ <;> simp at hb
        right
        exact ⟨facePrediction E s rect, by rw [← hb.1, ← hb.2.1.1]⟩
      · rcases b1 with _ | ⟨x, b⟩ <;> simp at hb
        left
        exact ⟨rfl, hb.1.1 ▸ h0⟩

theorem faceLoop_scanFresh (E : Vision) (req : RecognizeReq) (all : List Rectangle)
    (s : RecState E) (hf : FacesBelow 0 s.trace) (hs : ScanFresh s.trace) :
    ScanFresh (faceLoop E req s 0 all).trace := by
  have key := faceLoop_rule E req all
    (fun pre s => FacesBelow pre.length s.trace ∧ ScanFresh s.trace)
    (fun s => ScanFresh s.trace) ?_ ?_ ?_ all [] s rfl ⟨hf, hs⟩
  · simpa using key
  · intro pre rect post s _ ⟨h1, h2⟩ _
    simpa using faceStep_scanFresh E req s pre.length rect h1 h2
  · intro pre rect post s _ ⟨h1, h2⟩ _
    exact (faceStep_scanFresh E req s pre.length rect h1 h2).2
  · intro s h
    exact h.2

theorem startState_facesBelow (E : Vision) (req : RecognizeReq) (rsp : RecognizeRsp)
    (stdin : List (Option ℤ)) : FacesBelow 0 (startState E req rsp stdin).trace := by
  intro e he k hk
  rw [startState_trace E req rsp stdin e he] at hk
  simp [Effect.face] at hk

theorem Recognize_scanFresh (E : Vision) (req : RecognizeReq) (rsp : RecognizeRsp)
    (stdin : List (Option ℤ)) : ScanFresh (Recognize E req rsp stdin).trace := by
  cases himg : E.Empty (E.IMRead req.Input) with
  | true =>
    rw [Recognize_unreadable E req rsp stdin himg]
    intro pre j r post h
    simp at h
  | false =>
    rw [(Recognize_readable E req rsp stdin himg).2]
    refine scanFresh_append (faceLoop_scanFresh E req _ _
      (startState_facesBelow E req rsp stdin) ?_) ?_
    · intro pre j r post h
      have := startState_trace E req rsp stdin (Effect.Scanln j r) (by rw [h]; simp)
      simp at this
    · intro b1 j r post hb
      have : Effect.Scanln j r ∈ (if 0 < (finalState E req rsp stdin).trainCount
          then [Effect.SaveFile (recognizedFile req)] else []) := by
        rw [hb]
        simp
      split_ifs at this <;> simp at this

/-- The label a face has after a scan on it, read on the trace: the reply that
was stored, or the label predicted right before a scan that failed, or zero. -/
theorem labelOf_scan {tr pre post : List Effect} {j : ℕ} {r : Option ℤ} (hs : ScanFresh tr)
    (h : tr = pre ++ Effect.Scanln j r :: post) :
    (∀ v, r = some v → labelOf j (pre ++ [Effect.Scanln j r]) = v) ∧
      (r = none → (labelOf j (pre ++ [Effect.Scanln j r]) = 0 ∨
        ∃ pre2 p, pre = pre2 ++ [Effect.Predict j p] ∧
          labelOf j (pre ++ [Effect.Scanln j r]) = p.Label)) := by
  constructor
  · rintro v rfl
    simp [labelOf_append, labelStep]
  · rintro rfl
    rcases hs pre j none post h with h0 | ⟨pre2, p, hp⟩
    · left
      simp [labelOf_append, labelStep, h0]
    · right
      refine ⟨pre2, p, hp, ?_⟩
      rw [hp]
      simp [labelOf_append, labelStep]

/-- The entries of a call on a readable image that was not left. -/
theorem Recognize_entries (E : Vision) (req : RecognizeReq) (rsp : RecognizeRsp)
    (stdin : List (Option ℤ)) (himg : E.Empty (E.IMRead req.Input) = false)
    (hno : ∀ k, Effect.BreakTrain k ∉ (Recognize E req rsp stdin).trace) :
    ∃ objs : List RecognizeObj,
      objs.map RecognizeObj.rect = E.DetectMultiScale (cascadeFile req) (E.IMRead req.Input) ∧
      (Recognize E req rsp stdin).rsp.List = rsp.List ++ knownOf objs ∧
      (Recognize E req rsp stdin).rsp.Unknowns = rsp.Unknowns ++ unknownOf objs ∧
      LabelsFrom (Recognize E req rsp stdin).trace objs := by
  obtain ⟨hr, ht⟩ := Recognize_readable E req rsp stdin himg
  have hno2 : ∀ k, Effect.BreakTrain k ∉ (finalState E req rsp stdin).trace := by
    intro k hk
    exact hno k (by rw [ht]; exact List.mem_append_left _ hk)
  obtain ⟨objs, h1, h2, h3, h4⟩ := faceLoop_entries E req rsp
    (E.DetectMultiScale (cascadeFile req) (E.IMRead req.Input)) (startState E req rsp stdin)
    (startState_rsp E req rsp stdin) (startState_facesBelow E req rsp stdin)
    (fun k hk => by simpa using startState_trace E req rsp stdin _ hk) hno2
  refine ⟨objs, h1, by rw [hr]; exact h2, by rw [hr]; exact h3, ?_⟩
  rw [ht]
  refine labelsFrom_append_other (le_refl _) (fun e he => ?_) h4
  right
  split_ifs at he <;> simp at he
  rw [he]
  rfl

/-! ## What follows a scan -/

theorem finalState_isFirst (E : Vision) (req : RecognizeReq) (rsp : RecognizeRsp)
    (stdin : List (Option ℤ)) :
    (finalState E req rsp stdin).isFirst = modelEmpty (finalState E req rsp stdin).trace := by
  obtain ⟨pr, hl⟩ := faceLoop_invariant E req
    (fun s => ∃ pr, watch Watch.start s.trace =
      some { empty := s.isFirst, predicted := pr, due := none })
    (fun s i rect hs => faceStep_watch E req s i rect hs) _ 0
    (E.DetectMultiScale (cascadeFile req) (E.IMRead req.Input))
    (startState_watch E req rsp stdin)
  have := watch_empty hl
  simpa [Watch.start, finalState] using this

theorem modelEmpty_append (a b : List Effect) :
    modelEmpty (a ++ b) = (modelEmpty a && modelEmpty b) := by
  simp [modelEmpty, List.all_append]

/-- After a scan of a call: a label left positive is applied at once, with
`Train` on an empty model and with `Update` otherwise, and a label not positive
is not applied. -/
theorem Recognize_scan (E : Vision) (req : RecognizeReq) (rsp : RecognizeRsp)
    (stdin : List (Option ℤ)) (pre post : List Effect) (j : ℕ) (r : Option ℤ)
    (h : (Recognize E req rsp stdin).trace = pre ++ Effect.Scanln j r :: post) :
    (0 < labelOf j (pre ++ [Effect.Scanln j r]) →
        ∃ post1, post =
          (if modelEmpty pre then Effect.Train j (labelOf j (pre ++ [Effect.Scanln j r]))
            else Effect.Update j (labelOf j (pre ++ [Effect.Scanln j r]))) :: post1) ∧
      (labelOf j (pre ++ [Effect.Scanln j r]) ≤ 0 →
        ∀ k l post1, post ≠ Effect.Train k l :: post1 ∧ post ≠ Effect.Update k l :: post1) := by
  obtain ⟨wf, hw, hd⟩ := Recognize_watch E req rsp stdin
  obtain ⟨e, he⟩ := Recognize_life E req rsp stdin
  obtain ⟨h1, h2⟩ := labelOf_scan (Recognize_scanFresh E req rsp stdin) h
  constructor
  · intro hpos
    cases r with
    | some v =>
      rw [h1 v rfl] at hpos ⊢
      rw [h] at hw
      exact watch_positive_reply hw hd hpos
    | none =>
      rcases h2 rfl with h0 | ⟨pre2, p, hp, hl⟩
      · omega
      · rw [hl] at hpos ⊢
        subst hp
        rw [h, List.append_assoc, List.singleton_append] at hw he
        have hne : modelEmpty pre2 = false := by simpa using lifeRun_predict he
        obtain ⟨post1, hpost⟩ := watch_failed_scan hw hd hpos
        refine ⟨post1, ?_⟩
        rw [modelEmpty_append, hne]
        simpa using hpost
  · intro hle k l post1
    have key : ∀ x, (x = Effect.Train k l ∨ x = Effect.Update k l) → post ≠ x :: post1 := by
      intro x hx hpost
      subst hpost
      have h3 : (Recognize E req rsp stdin).trace =
          (pre ++ [Effect.Scanln j r]) ++ x :: post1 := by
        rw [h]
        simp
      rw [h3] at hw
      obtain ⟨hl, pre1, r1, hpre, hcase⟩ := watch_applied_origin hw hx
      obtain ⟨hp1, hs1⟩ := List.append_inj' hpre rfl
      simp only [List.cons.injEq, Effect.Scanln.injEq, and_true] at hs1
      obtain ⟨hj, hr⟩ := hs1
      subst hj hr hp1
      rcases hcase with hr | ⟨hr, pre2, p, hp2, hpl⟩
      · rw [h1 l hr] at hle
        omega
      · subst hr hp2
        simp only [labelOf_append, List.foldl_cons, List.foldl_nil, labelStep, if_true] at hle
        omega
    exact ⟨key _ (Or.inl rfl), key _ (Or.inr rfl)⟩

/-! ## The operator's replies -/

theorem Scanln_reply_rest (stdin : List (Option ℤ)) (l : ℤ) :
    (Scanln stdin l).reply = stdin.head?.getD none ∧ (Scanln stdin l).rest = stdin.tail := by
  unfold Ancv.Scanln
  split <;> simp

theorem scanReplies_append (a b : List Effect) :
    scanReplies (a ++ b) = scanReplies a ++ scanReplies b := by
  simp [scanReplies, List.filterMap_append]

theorem scanReplies_predictEvents (b : Bool) (i : ℕ) (p : PredictResponse) :
    scanReplies (predictEvents b i p) = [] := by
  cases b <;> simp [scanReplies, predictEvents, Effect.reply]

theorem faceStep_replies (E : Vision) (req : RecognizeReq) (stdin0 : List (Option ℤ))
    (s : RecState E) (i : ℕ) (rect : Rectangle)
    (h : ∃ n, scanReplies s.trace = (List.range n).map (fun k => stdin0.getD k none) ∧
      s.stdin = stdin0.drop n) :
    ∃ n, scanReplies (faceStep E req s i rect).1.trace =
        (List.range n).map (fun k => stdin0.getD k none) ∧
      (faceStep E req s i rect).1.stdin = stdin0.drop n := by
  obtain ⟨n, h1, h2⟩ := h
  have hscan : (faceScan E s rect).reply = stdin0.getD n none ∧
      (faceScan E s rect).rest = stdin0.drop (n + 1) := by
    have := Scanln_reply_rest s.stdin (facePredicted E s rect).Label
    rw [h2, List.head?_drop, List.tail_drop] at this
    rw [List.getD_eq_getElem?_getD]
    unfold faceScan
    rw [h2]
    exact this
  have hnext : (List.range (n + 1)).map (fun k => stdin0.getD k none) =
      scanReplies s.trace ++ [(faceScan E s rect).reply] := by
    rw [List.range_succ, List.map_append, h1, hscan.1]
    rfl
  rcases faceStep_cases E req s i rect with ⟨_, h⟩ | ⟨_, _, _, h⟩ |
    ⟨_, _, _, h⟩ | ⟨_, _, h⟩ | ⟨_, _, _, h⟩ <;> rw [h] <;> simp only []
  · exact ⟨n, by rw [scanReplies_append, scanReplies_predictEvents, List.append_nil, h1], h2⟩
  · exact ⟨n + 1, by rw [hnext, scanReplies_append]; simp [scanReplies, Effect.reply],
      hscan.2⟩
  · exact ⟨n + 1, by rw [hnext, scanReplies_append]; simp [scanReplies, Effect.reply],
      hscan.2⟩
  · refine ⟨n + 1, ?_, hscan.2⟩
    rw [hnext, scanReplies_append, scanReplies_append, scanReplies_predictEvents]
    simp [scanReplies, Effect.reply]
  · refine ⟨n + 1, ?_, hscan.2⟩
    rw [hnext, scanReplies_append, scanReplies_append, scanReplies_predictEvents]
    simp [scanReplies, Effect.reply]

/-- The scans of a call read the operator's replies one after the other: the
scan of rank `k` stores the number of the reply of rank `k`, and fails when
that reply is not a number or is missing. -/
theorem Recognize_replies (E : Vision) (req : RecognizeReq) (rsp : RecognizeRsp)
    (stdin : List (Option ℤ)) (k : ℕ) (r : Option ℤ)
    (h : (scanReplies (Recognize E req rsp stdin).trace)[k]? = some r) :
    r = stdin.getD k none := by
  cases himg : E.Empty (E.IMRead req.Input) with
  | true =>
    rw [Recognize_unreadable E req rsp stdin himg] at h
    simp [scanReplies] at h
  | false =>
    obtain ⟨n, h1, _⟩ := faceLoop_invariant E req
      (fun s => ∃ n, scanReplies s.trace = (List.range n).map (fun k => stdin.getD k none) ∧
        s.stdin = stdin.drop n)
      (fun s i rect hs => faceStep_replies E req stdin s i rect hs)
      (startState E req rsp stdin) 0
      (E.DetectMultiScale (cascadeFile req) (E.IMRead req.Input))
      ⟨0, by
        unfold startState
        simp only []
        split_ifs <;> simp [scanReplies, Effect.reply]⟩
    have hfin : scanReplies (Recognize E req rsp stdin).trace =
        (List.range n).map (fun k => stdin.getD k none) := by
      rw [(Recognize_readable E req rsp stdin himg).2, scanReplies_append]
      unfold finalState
      rw [h1]
      split_ifs <;> simp [scanReplies, Effect.reply]
    rw [hfin, List.getElem?_map] at h
    by_cases hk : k < n
    · rw [List.getElem?_range hk] at h
      simpa using h.symm
    · rw [List.getElem?_eq_none (by simpa using hk)] at h
      simp at h

/-! ## The claims on `App.Recognize` -/

/-- C1, as stated, fails: in a call without `Ask` on a loaded model, the one
face of the image is predicted with label 5 at distance 21, so its ratio is
89.5, below 90, and yet the face is appended to the known list `List`, not to
`Unknowns`. -/
theorem noninteractive_low_ratio_is_known :
    (Recognize (toyVision true toyTable) (toyReq "one" false) emptyRsp []).rsp =
        { List := [{ Label := 5, Confidence := Float32.fin 21, Ratio := Float32.fin (mkRat 179 2),
                     Left := 0, Top := 0, Right := 10, Bottom := 10 }],
          Unknowns := [] } ∧
      Float32.lt (Float32.fin (mkRat 179 2)) (Float32.ofInt 90) = true := by
  decide

/-- C1, amended: in a call without `Ask` on a readable image and a loaded
model, the faces are predicted one after the other and a face is appended to
the known list `List` if and only if its predicted label is positive, whatever
its ratio, and to `Unknowns` otherwise. -/
theorem noninteractive_known_iff_positive (E : Vision) (req : RecognizeReq)
    (rsp : RecognizeRsp) (stdin : List (Option ℤ)) (hask : req.Ask = false)
    (himg : E.Empty (E.IMRead req.Input) = false)
    (hfile : E.Stat (recognizedFile req) = true) :
    (Recognize E req rsp stdin).rsp.List =
        rsp.List ++ knownOf (predictAll E
          (E.LoadFile E.NewLBPHFaceRecognizer (recognizedFile req)) (E.IMRead req.Input)
          (E.DetectMultiScale (cascadeFile req) (E.IMRead req.Input))) ∧
      (Recognize E req rsp stdin).rsp.Unknowns =
        rsp.Unknowns ++ unknownOf (predictAll E
          (E.LoadFile E.NewLBPHFaceRecognizer (recognizedFile req)) (E.IMRead req.Input)
          (E.DetectMultiScale (cascadeFile req) (E.IMRead req.Input))) := by
  rw [(Recognize_readable E req rsp stdin himg).1]
  have h := faceLoop_noAsk E req hask
    (E.DetectMultiScale (cascadeFile req) (E.IMRead req.Input))
    (startState E req rsp stdin) 0 (by simp [startState, hfile])
  simpa [finalState, startState, hfile] using h

theorem noninteractive_known_iff_positive_witness :
    (toyReq "three" false).Ask = false ∧
      (toyVision true toyTable).Empty ((toyVision true toyTable).IMRead (toyReq "three" false).Input)
        = false ∧
      (toyVision true toyTable).Stat (recognizedFile (toyReq "three" false)) = true ∧
      (Recognize (toyVision true toyTable) (toyReq "three" false) emptyRsp []).rsp.List =
        emptyRsp.List ++ knownOf (predictAll (toyVision true toyTable)
          ((toyVision true toyTable).LoadFile (toyVision true toyTable).NewLBPHFaceRecognizer
            (recognizedFile (toyReq "three" false)))
          ((toyVision true toyTable).IMRead (toyReq "three" false).Input)
          ((toyVision true toyTable).DetectMultiScale (cascadeFile (toyReq "three" false))
            ((toyVision true toyTable).IMRead (toyReq "three" false).Input))) ∧
      (Recognize (toyVision true toyTable) (toyReq "three" false) emptyRsp []).rsp.Unknowns =
        emptyRsp.Unknowns ++ unknownOf (predictAll (toyVision true toyTable)
          ((toyVision true toyTable).LoadFile (toyVision true toyTable).NewLBPHFaceRecognizer
            (recognizedFile (toyReq "three" false)))
          ((toyVision true toyTable).IMRead (toyReq "three" false).Input)
          ((toyVision true toyTable).DetectMultiScale (cascadeFile (toyReq "three" false))
            ((toyVision true toyTable).IMRead (toyReq "three" false).Input))) :=
  ⟨by decide, by decide, by decide,
    noninteractive_known_iff_positive (toyVision true toyTable) (toyReq "three" false) emptyRsp []
      (by decide) (by decide) (by decide)⟩

/-- C2, as stated, fails: with three faces and an empty model, the operator
answers 0 on the first face and the sentinel -1 on the second; the unknown
list then holds the first face only, so the second and the third face are not
in it. -/
theorem sentinel_leaves_faces_out_of_unknowns :
    (toyVision false toyTable).DetectMultiScale (cascadeFile (toyReq "three" true))
        ((toyVision false toyTable).IMRead (toyReq "three" true).Input) =
        [⟨0, 0, 10, 10⟩, ⟨1, 0, 11, 10⟩, ⟨2, 0, 12, 10⟩] ∧
      (Recognize (toyVision false toyTable) (toyReq "three" true) emptyRsp
          [some 0, some (-1)]).trace =
        [Effect.Scanln 0 (some 0), Effect.Scanln 1 (some (-1)), Effect.BreakTrain 1] ∧
      (Recognize (toyVision false toyTable) (toyReq "three" true) emptyRsp
          [some 0, some (-1)]).rsp =
        { List := [],
          Unknowns := [{ Label := 0, Confidence := Float32.fin 0, Ratio := Float32.fin 0,
                         Left := 0, Top := 0, Right := 10, Bottom := 10 }] } := by
  decide

/-- C2, amended: when the operator's reply on the face of index `j` (face
`k = j + 1` of `n`) is the sentinel -1, the loop is left before that face is
routed: the response lists hold one entry for each of the faces before it, in
`List` or in `Unknowns` by its label, and no entry for the faces `k..n`, which
are in neither list. -/
theorem sentinel_stops_before_routing (E : Vision) (req : RecognizeReq) (rsp : RecognizeRsp)
    (stdin : List (Option ℤ)) (j : ℕ)
    (h : Effect.Scanln j (some (-1)) ∈ (Recognize E req rsp stdin).trace) :
    j < (E.DetectMultiScale (cascadeFile req) (E.IMRead req.Input)).length ∧
      ∃ objs : List RecognizeObj,
        objs.map RecognizeObj.rect =
          (E.DetectMultiScale (cascadeFile req) (E.IMRead req.Input)).take j ∧
        (Recognize E req rsp stdin).rsp.List =
          rsp.List ++ objs.filter (fun o => decide (0 < o.Label)) ∧
        (Recognize E req rsp stdin).rsp.Unknowns =
          rsp.Unknowns ++ objs.filter (fun o => !decide (0 < o.Label)) := by
  cases himg : E.Empty (E.IMRead req.Input) with
  | true =>
    rw [Recognize_unreadable E req rsp stdin himg] at h
    simp at h
  | false =>
    obtain ⟨m, hl, hcase⟩ := Recognize_loopEnd E req rsp stdin himg
    rcases hcase with ⟨_, _, hu⟩ | ⟨hm, _, _, hs⟩
    · exact absurd h (hu j)
    · have := hs j h
      subst this
      exact ⟨hm, hl⟩

theorem sentinel_stops_before_routing_witness :
    Effect.Scanln 1 (some (-1)) ∈
        (Recognize (toyVision false toyTable) (toyReq "three" true) emptyRsp
          [none, some (-1)]).trace ∧
      1 < ((toyVision false toyTable).DetectMultiScale (cascadeFile (toyReq "three" true))
        ((toyVision false toyTable).IMRead (toyReq "three" true).Input)).length ∧
      ∃ objs : List RecognizeObj,
        objs.map RecognizeObj.rect =
          ((toyVision false toyTable).DetectMultiScale (cascadeFile (toyReq "three" true))
            ((toyVision false toyTable).IMRead (toyReq "three" true).Input)).take 1 ∧
        (Recognize (toyVision false toyTable) (toyReq "three" true) emptyRsp
            [none, some (-1)]).rsp.List =
          emptyRsp.List ++ objs.filter (fun o => decide (0 < o.Label)) ∧
        (Recognize (toyVision false toyTable) (toyReq "three" true) emptyRsp
            [none, some (-1)]).rsp.Unknowns =
          emptyRsp.Unknowns ++ objs.filter (fun o => !decide (0 < o.Label)) :=
  ⟨by decide,
    sentinel_stops_before_routing (toyVision false toyTable) (toyReq "three" true) emptyRsp
      [none, some (-1)] 1 (by decide)⟩

/-- C3, as stated, fails: on a loaded model the one face of the image is
predicted with label 5 at ratio 89.5 and the operator's reply does not parse;
no face received a positive operator label, and yet the predicted label is
applied with `Update` and the model is saved. -/
theorem save_without_positive_reply :
    (Recognize (toyVision true toyTable) (toyReq "one" true) emptyRsp [none]).trace =
      [Effect.LoadFile "./data/lbph/recognized_faces.xml",
        Effect.Predict 0 { Label := 5, Confidence := Float32.fin 21 },
        Effect.Scanln 0 none, Effect.Update 0 5,
        Effect.SaveFile "./data/lbph/recognized_faces.xml"] := by
  decide

/-- C3, amended: a call ends with one `SaveFile`, on the recognizer file, if
and only if some face of that call was applied to the model by `Train` or
`Update`, and has no `SaveFile` otherwise. A face is applied exactly when the
scan on it leaves its label positive: the application comes right after the
scan, on the same face and with that label, which is the reply the scan stored
or, when the scan failed, the label predicted right before it; a positive reply
is applied at once, and so is a positive prediction whose scan failed, while a
scan that leaves a label not positive is followed by no application. So a call
without `Ask` and a call whose replies are all numbers below 1 do not save, and
a call left at the face of index `k` saves exactly when a face before `k` was
applied. -/
theorem save_iff_applied (E : Vision) (req : RecognizeReq) (rsp : RecognizeRsp)
    (stdin : List (Option ℤ)) :
    ((∃ body, (∀ p, Effect.SaveFile p ∉ body) ∧
        ((Applied body ∧ (Recognize E req rsp stdin).trace =
            body ++ [Effect.SaveFile (recognizedFile req)]) ∨
          (¬ Applied body ∧ (Recognize E req rsp stdin).trace = body))) ∧
      ((∃ p, Effect.SaveFile p ∈ (Recognize E req rsp stdin).trace) ↔
        Applied (Recognize E req rsp stdin).trace) ∧
      AppliedAfterScan (Recognize E req rsp stdin).trace ∧
      PositiveApplied (Recognize E req rsp stdin).trace ∧
      (req.Ask = false → ∀ p, Effect.SaveFile p ∉ (Recognize E req rsp stdin).trace) ∧
      ((∀ j r, Effect.Scanln j r ∈ (Recognize E req rsp stdin).trace → ∃ v, r = some v ∧ v ≤ 0) →
        ∀ p, Effect.SaveFile p ∉ (Recognize E req rsp stdin).trace) ∧
      (∀ k, Effect.BreakTrain k ∈ (Recognize E req rsp stdin).trace →
        ((∃ p, Effect.SaveFile p ∈ (Recognize E req rsp stdin).trace) ↔
          ∃ j l, j < k ∧ (Effect.Train j l ∈ (Recognize E req rsp stdin).trace ∨
            Effect.Update j l ∈ (Recognize E req rsp stdin).trace)))) ∧
      (∀ pre x post j l, (Recognize E req rsp stdin).trace = pre ++ x :: post →
        (x = Effect.Train j l ∨ x = Effect.Update j l) →
        0 < l ∧ ∃ pre1 r, pre = pre1 ++ [Effect.Scanln j r] ∧
          (r = some l ∨
            (r = none ∧ ∃ pre2 p, pre1 = pre2 ++ [Effect.Predict j p] ∧ p.Label = l))) ∧
      (∀ pre j v post,
        (Recognize E req rsp stdin).trace = pre ++ Effect.Scanln j (some v) :: post → 0 < v →
        ∃ post1, post = Effect.Train j v :: post1 ∨ post = Effect.Update j v :: post1) ∧
      (∀ pre j p post,
        (Recognize E req rsp stdin).trace =
          pre ++ Effect.Predict j p :: Effect.Scanln j none :: post →
        0 < p.Label → ∃ post1, post = Effect.Update j p.Label :: post1) ∧
      (∀ pre j r post, (Recognize E req rsp stdin).trace = pre ++ Effect.Scanln j r :: post →
        (0 < labelOf j (pre ++ [Effect.Scanln j r]) →
          ∃ post1, post = Effect.Train j (labelOf j (pre ++ [Effect.Scanln j r])) :: post1 ∨
            post = Effect.Update j (labelOf j (pre ++ [Effect.Scanln j r])) :: post1) ∧
        (labelOf j (pre ++ [Effect.Scanln j r]) ≤ 0 →
          ∀ k l post1, post ≠ Effect.Train k l :: post1 ∧
            post ≠ Effect.Update k l :: post1)) := by
  obtain ⟨wf, hw, hd⟩ := Recognize_watch E req rsp stdin
  refine ⟨?_, ?_, ?_, ?_, ?_⟩
  · cases himg : E.Empty (E.IMRead req.Input) with
    | true =>
      rw [Recognize_unreadable E req rsp stdin himg]
      refine ⟨⟨[], by simp, Or.inr ⟨by simp [Applied], rfl⟩⟩, by simp [Applied],
        by simp [AppliedAfterScan], by simp [PositiveApplied], by simp, by simp, by simp⟩
    | false =>
      obtain ⟨hc, hns, has, hpa, hbefore, hnoask⟩ := finalState_facts E req rsp stdin
      have hcp := countP_mutates_pos (finalState E req rsp stdin).trace
      have hsave : AppliedAfterScan [Effect.SaveFile (recognizedFile req)] := by
        intro j l h
        simp at h
      have hsave2 : PositiveApplied [Effect.SaveFile (recognizedFile req)] := by
        intro j v _ h
        simp at h
      -- a `Train` or `Update` needs a scan that is not a number below 1
      have hreplies : ∀ tr, AppliedAfterScan tr →
          (∀ j r, Effect.Scanln j r ∈ tr → ∃ v, r = some v ∧ v ≤ 0) → ¬ Applied tr := by
        rintro tr h1 h2 ⟨j, l, h3⟩
        obtain ⟨hl, h4 | h4⟩ := h1 j l h3
        · obtain ⟨v, hv, hv2⟩ := h2 _ _ h4
          simp at hv
          omega
        · obtain ⟨v, hv, _⟩ := h2 _ _ h4
          simp at hv
      rcases Recognize_trace E req rsp stdin himg with ⟨ha, ht⟩ | ⟨ha, ht⟩
      · rw [ht]
        refine ⟨⟨_, hns, Or.inl ⟨ha, rfl⟩⟩, ?_, appliedAfterScan_append has hsave,
          positiveApplied_append hpa hsave2, ?_, ?_, ?_⟩
        · rw [Applied_snoc_save]
          exact ⟨fun _ => ha, fun _ => ⟨recognizedFile req, by simp⟩⟩
        · intro hask
          rw [← hcp, ← hc, hnoask hask] at ha
          omega
        · intro hr
          exact absurd ha (hreplies _ has (fun j r h => hr j r (by simp [h])))
        · intro k hk
          have hk2 : Effect.BreakTrain k ∈ (finalState E req rsp stdin).trace := by
            simpa using hk
          constructor
          · intro _
            obtain ⟨j, l, hjl⟩ := ha
            exact ⟨j, l, hbefore k hk2 j l hjl, by simpa using hjl⟩
          · intro _
            exact ⟨recognizedFile req, by simp⟩
      · rw [ht]
        refine ⟨⟨_, hns, Or.inr ⟨ha, rfl⟩⟩, ?_, has, hpa, fun _ => hns, fun _ => hns, ?_⟩
        · constructor
          · rintro ⟨p, hp⟩
            exact absurd hp (hns p)
          · intro h
            exact absurd h ha
        · intro k _
          constructor
          · rintro ⟨p, hp⟩
            exact absurd hp (hns p)
          · rintro ⟨j, l, _, hjl⟩
            exact absurd ⟨j, l, hjl⟩ ha
  · intro pre x post j l h hx
    rw [h] at hw
    exact watch_applied_origin hw hx
  · intro pre j v post h hv
    rw [h] at hw
    obtain ⟨post1, hpost⟩ := watch_positive_reply hw hd hv
    refine ⟨post1, ?_⟩
    rw [hpost]
    split_ifs
    · exact Or.inl rfl
    · exact Or.inr rfl
  · intro pre j p post h hp
    rw [h] at hw
    exact watch_failed_scan hw hd hp
  · intro pre j r post h
    obtain ⟨h1, h2⟩ := Recognize_scan E req rsp stdin pre post j r h
    refine ⟨fun hpos => ?_, h2⟩
    obtain ⟨post1, hpost⟩ := h1 hpos
    refine ⟨post1, ?_⟩
    rw [hpost]
    split_ifs
    · exact Or.inl rfl
    · exact Or.inr rfl

/-- C4: in every call, whatever the faces, the operator's replies and the
initial model (new, or loaded from the recognizer file), `Update` is never
called while the model is empty (nothing loaded and nothing trained before in
the trace), `Train` is called only while the model is empty and at most once,
and a prediction is never asked of an empty model either. Every scan that
leaves a positive label (a positive reply, or a positive prediction kept by a
failed scan) is followed at once by the application of that label to that
face: by `Train` when the model is empty, which makes it non-empty, and by
`Update` otherwise, so that every positive label after a `Train` or a load
uses `Update`; and the flag `isFirst` at the end of the loop tells whether the
model is still empty. -/
theorem model_lifecycle (E : Vision) (req : RecognizeReq) (rsp : RecognizeRsp)
    (stdin : List (Option ℤ)) :
    (∀ pre post i l, (Recognize E req rsp stdin).trace = pre ++ Effect.Update i l :: post →
        modelEmpty pre = false) ∧
      (∀ pre post i l, (Recognize E req rsp stdin).trace = pre ++ Effect.Train i l :: post →
        modelEmpty pre = true) ∧
      ((Recognize E req rsp stdin).trace.filter Effect.isTrain).length ≤ 1 ∧
      (∀ pre post i p, (Recognize E req rsp stdin).trace = pre ++ Effect.Predict i p :: post →
        modelEmpty pre = false) ∧
      (∀ pre j v post,
        (Recognize E req rsp stdin).trace = pre ++ Effect.Scanln j (some v) :: post → 0 < v →
        ∃ post1, post =
          (if modelEmpty pre then Effect.Train j v else Effect.Update j v) :: post1) ∧
      (∀ pre j p post,
        (Recognize E req rsp stdin).trace =
          pre ++ Effect.Predict j p :: Effect.Scanln j none :: post →
        0 < p.Label → ∃ post1, post = Effect.Update j p.Label :: post1) ∧
      (∀ pre j r post, (Recognize E req rsp stdin).trace = pre ++ Effect.Scanln j r :: post →
        0 < labelOf j (pre ++ [Effect.Scanln j r]) →
        ∃ post1, post =
          (if modelEmpty pre then Effect.Train j (labelOf j (pre ++ [Effect.Scanln j r]))
            else Effect.Update j (labelOf j (pre ++ [Effect.Scanln j r]))) :: post1) ∧
      (∀ pre i l, modelEmpty (pre ++ [Effect.Train i l]) = false) ∧
      (∀ pre x mid j r post,
        (Recognize E req rsp stdin).trace = pre ++ x :: (mid ++ Effect.Scanln j r :: post) →
        x.fills = true → 0 < labelOf j (pre ++ x :: (mid ++ [Effect.Scanln j r])) →
        ∃ post1, post =
          Effect.Update j (labelOf j (pre ++ x :: (mid ++ [Effect.Scanln j r]))) :: post1) ∧
      (finalState E req rsp stdin).isFirst = modelEmpty (finalState E req rsp stdin).trace := by
  obtain ⟨e, he⟩ := Recognize_life E req rsp stdin
  obtain ⟨wf, hw, hd⟩ := Recognize_watch E req rsp stdin
  refine ⟨fun pre post i l h => ?_, fun pre post i l h => ?_, lifeRun_trainOnce he,
    fun pre post i p h => ?_, fun pre j v post h hv => ?_, fun pre j p post h hp => ?_,
    fun pre j r post h => (Recognize_scan E req rsp stdin pre post j r h).1,
    fun pre i l => ?_, fun pre x mid j r post h hx hpos => ?_,
    finalState_isFirst E req rsp stdin⟩
  · rw [h] at he
    simpa using lifeRun_update he
  · rw [h] at he
    simpa using lifeRun_train he
  · rw [h] at he
    simpa using lifeRun_predict he
  · rw [h] at hw
    exact watch_positive_reply hw hd hv
  · rw [h] at hw
    exact watch_failed_scan hw hd hp
  · simp [modelEmpty_append, modelEmpty, Effect.fills]
  · have h2 : (Recognize E req rsp stdin).trace =
        (pre ++ x :: mid) ++ Effect.Scanln j r :: post := by
      rw [h]
      simp
    have hpos2 : 0 < labelOf j ((pre ++ x :: mid) ++ [Effect.Scanln j r]) := by
      simpa using hpos
    obtain ⟨post1, hpost⟩ := (Recognize_scan E req rsp stdin _ post j r h2).1 hpos2
    have hne : modelEmpty (pre ++ x :: mid) = false := by
      simp [modelEmpty, hx]
    refine ⟨post1, ?_⟩
    rw [hne] at hpost
    simpa using hpost

/-- C5: the object of a face predicted at distance `d` carries that distance,
and its ratio is `(200 - d) / 200 * 100`, computed in `float32`, when `d < 200`
(90 for `d = 20`, 95 for `d = 10`), while for `d ≥ 200` (so for `d = 200`) no
ratio is produced and `Ratio` keeps its zero value; and every entry that a call
on a loaded model appends to its response lists has its ratio so related to its
distance. -/
theorem ratio_of_distance (E : Vision) (m : E.Model) (rect : Rectangle) (gray : E.Mat)
    (req : RecognizeReq) (rsp : RecognizeRsp) (stdin : List (Option ℤ)) :
    (predictObj E false m rect gray).Confidence = (E.PredictExtendedResponse m gray).Confidence ∧
      (Float32.lt (E.PredictExtendedResponse m gray).Confidence (Float32.ofInt 200) = true →
        (predictObj E false m rect gray).Ratio =
          Float32.mul
            (Float32.div
              (Float32.sub (Float32.ofInt 200) (E.PredictExtendedResponse m gray).Confidence)
              (Float32.ofInt 200))
            (Float32.ofInt 100)) ∧
      (Float32.lt (E.PredictExtendedResponse m gray).Confidence (Float32.ofInt 200) = false →
        (predictObj E false m rect gray).Ratio = Float32.fin 0) ∧
      ((E.PredictExtendedResponse m gray).Confidence = Float32.fin 20 →
        (predictObj E false m rect gray).Ratio = Float32.fin 90) ∧
      ((E.PredictExtendedResponse m gray).Confidence = Float32.fin 10 →
        (predictObj E false m rect gray).Ratio = Float32.fin 95) ∧
      ((E.PredictExtendedResponse m gray).Confidence = Float32.fin 200 →
        (predictObj E false m rect gray).Ratio = Float32.fin 0) ∧
      (E.Stat (recognizedFile req) = true →
        ∀ o, o ∈ (Recognize E req rsp stdin).rsp.List ∨
            o ∈ (Recognize E req rsp stdin).rsp.Unknowns →
          (o ∈ rsp.List ∨ o ∈ rsp.Unknowns) ∨ RatioOk o) := by
  have hc : (predictObj E false m rect gray).Confidence =
      (E.PredictExtendedResponse m gray).Confidence := by
    unfold predictObj
    simp only [Bool.not_false, if_true]
    split_ifs <;> rfl
  have hr := predictObj_ratioOk E m rect gray
  unfold RatioOk at hr
  rw [hc] at hr
  have h20 : Float32.mul (Float32.div (Float32.sub (Float32.ofInt 200) (Float32.fin 20))
      (Float32.ofInt 200)) (Float32.ofInt 100) = Float32.fin 90 := by decide
  have h10 : Float32.mul (Float32.div (Float32.sub (Float32.ofInt 200) (Float32.fin 10))
      (Float32.ofInt 200)) (Float32.ofInt 100) = Float32.fin 95 := by decide
  refine ⟨hc, hr.1, hr.2, fun hd => ?_, fun hd => ?_, fun hd => ?_, fun hfile o ho => ?_⟩
  · rw [hd] at hr
    rw [hr.1 (by decide), h20]
  · rw [hd] at hr
    rw [hr.1 (by decide), h10]
  · rw [hd] at hr
    exact hr.2 (by decide)
  · cases himg : E.Empty (E.IMRead req.Input) with
    | true =>
      rw [Recognize_unreadable E req rsp stdin himg] at ho
      exact Or.inl ho
    | false =>
      rw [(Recognize_readable E req rsp stdin himg).1] at ho
      refine faceLoop_ratioOk E req rsp (startState E req rsp stdin) 0 _ ?_ ?_ o ho
      · simp [startState, hfile]
      · intro o1 ho1
        rw [startState_rsp] at ho1
        exact Or.inl ho1

/-- C7: a call on a readable image that is not left by the sentinel (no
`break train.`) appends exactly one entry for each located face, in the order
of detection and with the rectangle of the face. The label of the entry of the
face of index `j` is the label the face ends its step with, as the trace of the
call tells it: zero, replaced by the label of the prediction of that face when
there is one, replaced by the operator's reply when a scan on that face stored
one, the scans reading the operator's replies one after the other. The entry
goes to the known list `List` when that label is positive, to `Unknowns`
otherwise, so that the two lists grow by the number of faces together. -/
theorem unaborted_call_routes_every_face (E : Vision) (req : RecognizeReq)
    (rsp : RecognizeRsp) (stdin : List (Option ℤ))
    (himg : E.Empty (E.IMRead req.Input) = false)
    (hno : ∀ k, Effect.BreakTrain k ∉ (Recognize E req rsp stdin).trace) :
    (∃ objs : List RecognizeObj,
        objs.map RecognizeObj.rect = E.DetectMultiScale (cascadeFile req) (E.IMRead req.Input) ∧
        (∀ j o, objs[j]? = some o → o.Label = labelOf j (Recognize E req rsp stdin).trace) ∧
        (Recognize E req rsp stdin).rsp.List =
          rsp.List ++ objs.filter (fun o => decide (0 < o.Label)) ∧
        (Recognize E req rsp stdin).rsp.Unknowns =
          rsp.Unknowns ++ objs.filter (fun o => !decide (0 < o.Label))) ∧
      (Recognize E req rsp stdin).rsp.List.length +
          (Recognize E req rsp stdin).rsp.Unknowns.length =
        rsp.List.length + rsp.Unknowns.length +
          (E.DetectMultiScale (cascadeFile req) (E.IMRead req.Input)).length ∧
      (∀ k r, (scanReplies (Recognize E req rsp stdin).trace)[k]? = some r →
        r = stdin.getD k none) := by
  obtain ⟨objs, h1, h2, h3, h4⟩ := Recognize_entries E req rsp stdin himg hno
  refine ⟨⟨objs, h1, h4, h2, h3⟩, ?_, Recognize_replies E req rsp stdin⟩
  rw [h2, h3, List.length_append, List.length_append, ← h1, List.length_map,
    ← knownOf_length_add objs]
  omega

theorem unaborted_call_routes_every_face_witness :
    (toyVision true toyTable).Empty ((toyVision true toyTable).IMRead (toyReq "three" true).Input)
        = false ∧
      (∀ k, Effect.BreakTrain k ∉
        (Recognize (toyVision true toyTable) (toyReq "three" true) emptyRsp [some 4, some 0]).trace) ∧
      ((∃ objs : List RecognizeObj,
        objs.map RecognizeObj.rect =
          (toyVision true toyTable).DetectMultiScale (cascadeFile (toyReq "three" true))
            ((toyVision true toyTable).IMRead (toyReq "three" true).Input) ∧
        (∀ j o, objs[j]? = some o → o.Label = labelOf j
          (Recognize (toyVision true toyTable) (toyReq "three" true) emptyRsp
            [some 4, some 0]).trace) ∧
        (Recognize (toyVision true toyTable) (toyReq "three" true) emptyRsp
            [some 4, some 0]).rsp.List =
          emptyRsp.List ++ objs.filter (fun o => decide (0 < o.Label)) ∧
        (Recognize (toyVision true toyTable) (toyReq "three" true) emptyRsp
            [some 4, some 0]).rsp.Unknowns =
          emptyRsp.Unknowns ++ objs.filter (fun o => !decide (0 < o.Label))) ∧
      (Recognize (toyVision true toyTable) (toyReq "three" true) emptyRsp
            [some 4, some 0]).rsp.List.length +
          (Recognize (toyVision true toyTable) (toyReq "three" true) emptyRsp
            [some 4, some 0]).rsp.Unknowns.length =
        emptyRsp.List.length + emptyRsp.Unknowns.length +
          ((toyVision true toyTable).DetectMultiScale (cascadeFile (toyReq "three" true))
            ((toyVision true toyTable).IMRead (toyReq "three" true).Input)).length ∧
      (∀ k r, (scanReplies (Recognize (toyVision true toyTable) (toyReq "three" true) emptyRsp
          [some 4, some 0]).trace)[k]? = some r →
        r = ([some 4, some 0] : List (Option ℤ)).getD k none)) :=
  have htr : (Recognize (toyVision true toyTable) (toyReq "three" true) emptyRsp
      [some 4, some 0]).trace =
      [Effect.LoadFile "./data/lbph/recognized_faces.xml",
        Effect.Predict 0 { Label := 5, Confidence := Float32.fin 21 },
        Effect.Scanln 0 (some 4), Effect.Update 0 4,
        Effect.Predict 1 { Label := 3, Confidence := Float32.fin 10 },
        Effect.Predict 2 { Label := 0, Confidence := Float32.fin 250 },
        Effect.Scanln 2 (some 0), Effect.SaveFile "./data/lbph/recognized_faces.xml"] := by
    decide
  have hno : ∀ k, Effect.BreakTrain k ∉
      (Recognize (toyVision true toyTable) (toyReq "three" true) emptyRsp
        [some 4, some 0]).trace := by
    intro k
    rw [htr]
    simp
  ⟨by decide, hno,
    unaborted_call_routes_every_face (toyVision true toyTable) (toyReq "three" true) emptyRsp
      [some 4, some 0] (by decide) hno⟩

theorem GetFloatAt_group (pre rest : List Float32) (g : Group) (k : ℕ) :
    GetFloatAt (pre ++ (g.scalars ++ rest)) (pre.length + k) = (g.scalars ++ rest).get? k := by
  unfold GetFloatAt
  simp [List.getElem?_append_right]

theorem classAt_inTable (D : Detector) (classes : List String) (g : Group)
    (h : g.inTable D classes = true) :
    classAt classes (g.classIdInt D) =
      some ((classes.get? (g.classIdInt D).toNat).getD "") := by
  unfold Group.inTable at h
  have h2 := of_decide_eq_true h
  unfold classAt
  rw [if_pos h2]
  have hlt : (g.classIdInt D).toNat < classes.length := by omega
  simp [List.getElem?_eq_getElem hlt]

theorem classAt_not_inTable (D : Detector) (classes : List String) (g : Group)
    (h : g.inTable D classes = false) : classAt classes (g.classIdInt D) = none := by
  unfold Group.inTable at h
  have h2 := of_decide_eq_false h
  unfold classAt
  rw [if_neg h2]

theorem classAt_isSome (classes : List String) (c : ℤ) :
    (classAt classes c).isSome = true ↔ (0 ≤ c ∧ c < classes.length) := by
  unfold classAt
  constructor
  · intro h
    by_contra hc
    rw [if_neg hc] at h
    simp at h
  · intro h
    rw [if_pos h]
    have hlt : c.toNat < classes.length := by omega
    simp [List.getElem?_eq_getElem hlt]

theorem detectLoop_groups (D : Detector) (img : D.Mat) (classes : List String) :
    ∀ (gs : List Group) (pre : List Float32) (rsp : DetectRsp) (fuel : ℕ), gs.length < fuel →
      detectLoop D img classes (pre ++ flatten gs) fuel pre.length rsp =
        decodeGroups D img classes gs rsp := by
  intro gs
  induction gs with
  | nil =>
    intro pre rsp fuel hf
    obtain ⟨fuel, rfl⟩ : ∃ n, fuel = n + 1 := ⟨fuel - 1, by simp at hf; omega⟩
    simp [detectLoop, flatten, decodeGroups]
  | cons g gs ih =>
    intro pre rsp fuel hf
    obtain ⟨fuel, rfl⟩ : ∃ n, fuel = n + 1 := ⟨fuel - 1, by omega⟩
    have hmat : pre ++ flatten (g :: gs) = pre ++ (g.scalars ++ flatten gs) := by
      simp [flatten]
    have hmat2 : pre ++ (g.scalars ++ flatten gs) = (pre ++ g.scalars) ++ flatten gs := by
      simp
    have hlen : (pre ++ g.scalars).length = pre.length + 7 := by
      simp [Group.scalars]
    have hi : pre.length < (pre ++ (g.scalars ++ flatten gs)).length := by
      simp [Group.scalars]
    have ih1 := fun rsp1 => ih (pre ++ g.scalars) rsp1 fuel (by simp at hf; omega)
    rw [hlen, ← hmat2] at ih1
    rw [hmat]
    unfold detectLoop
    simp only [hi, if_true, GetFloatAt_group]
    simp only [Group.scalars, List.cons_append, List.get?_cons_succ, List.get?_cons_zero]
    unfold decodeGroups
    cases hr : g.retained with
    | false =>
      have hr2 : Float32.gt g.confidence (Float32.roundFrac 3 10) = false := hr
      simp only [hr2, Bool.false_eq_true, if_false]
      exact ih1 rsp
    | true =>
      have hr2 : Float32.gt g.confidence (Float32.roundFrac 3 10) = true := hr
      simp only [hr2, if_true]
      cases ht : g.inTable D classes with
      | false =>
        have := classAt_not_inTable D classes g ht
        unfold Group.classIdInt at this
        simp only [this, Bool.false_eq_true, if_false]
      | true =>
        have := classAt_inTable D classes g ht
        unfold Group.classIdInt at this
        simp only [this, if_true]
        exact ih1 _

theorem decodeGroups_ok (D : Detector) (img : D.Mat) (classes : List String) :
    ∀ (gs : List Group) (rsp : DetectRsp),
      (∀ g ∈ gs, g.retained = true → g.inTable D classes = true) →
      decodeGroups D img classes gs rsp =
        Outcome.returned
          { List := rsp.List ++ (gs.filter Group.retained).map (Group.toObj D img classes) } := by
  intro gs
  induction gs with
  | nil =>
    intro rsp _
    simp [decodeGroups]
  | cons g gs ih =>
    intro rsp h
    have hrest : ∀ g1 ∈ gs, g1.retained = true → g1.inTable D classes = true :=
      fun g1 hg1 => h g1 (List.mem_cons_of_mem _ hg1)
    unfold decodeGroups
    cases hr : g.retained with
    | false => simp [ih rsp hrest, List.filter_cons, hr]
    | true =>
      have ht := h g (List.mem_cons_self _ _) hr
      simp [ht, ih _ hrest, List.filter_cons, hr]

theorem decodeGroups_panic (D : Detector) (img : D.Mat) (classes : List String) :
    ∀ (gs : List Group) (rsp : DetectRsp),
      (∃ g ∈ gs, g.retained = true ∧ g.inTable D classes = false) →
      decodeGroups D img classes gs rsp = Outcome.panicked := by
  intro gs
  induction gs with
  | nil =>
    rintro rsp ⟨g, hg, _⟩
    simp at hg
  | cons g gs ih =>
    rintro rsp ⟨g1, hg1, hr1, ht1⟩
    unfold decodeGroups
    rcases List.mem_cons.mp hg1 with rfl | hmem
    · simp [hr1, ht1]
    · have hrec : ∀ rsp1, decodeGroups D img classes gs rsp1 = Outcome.panicked :=
        fun rsp1 => ih rsp1 ⟨g1, hmem, hr1, ht1⟩
      cases hr : g.retained with
      | false => simp [hrec]
      | true =>
        cases ht : g.inTable D classes with
        | false => simp
        | true => simp [hrec]

theorem flatten_length (gs : List Group) : (flatten gs).length = 7 * gs.length := by
  unfold flatten
  induction gs with
  | nil => rfl
  | cons g gs ih =>
    simp only [List.map_cons, List.flatten_cons, List.length_append, List.length_cons]
    rw [ih]
    simp [Group.scalars]
    omega

/-- The bound on the iterations is never reached: with `fuel` tests left for a
loop at index `i`, and at least one more test than groups left to read, the
loop does not run out of fuel. -/
theorem detectLoop_fuel (D : Detector) (img : D.Mat) (classes : List String)
    (mat : List Float32) :
    ∀ (fuel i : ℕ) (rsp : DetectRsp), i ≤ mat.length + 6 → mat.length + 7 ≤ i + 7 * fuel →
      detectLoop D img classes mat fuel i rsp ≠ Outcome.outOfFuel := by
  intro fuel
  induction fuel with
  | zero =>
    intro i rsp h1 h2
    omega
  | succ fuel ih =>
    intro i rsp h1 h2
    unfold detectLoop
    split_ifs with hi
    · have hrec := fun rsp1 => ih (i + 7) rsp1 (by omega) (by omega)
      split
      · split_ifs
        · split
          · simp only []
            split
            · simp
            · exact hrec _
          · simp
        · exact hrec _
      · simp
    · simp

/-- The method `App.Detect` always ends within the bound of the model. -/
theorem Detect_fuel (D : Detector) (req : DetectReq) (rsp : DetectRsp) :
    Detect D req rsp ≠ Outcome.outOfFuel := by
  unfold Detect
  simp only []
  split_ifs
  · simp
  · split
    · simp
    · exact detectLoop_fuel D _ _ _ _ 0 rsp (by omega) (by omega)

/-- Every output whose length is a multiple of seven is made of groups. -/
theorem exists_groups (mat : List Float32) (h : mat.length % 7 = 0) :
    ∃ gs : List Group, mat = flatten gs := by
  obtain ⟨n, hn⟩ : ∃ n, mat.length = 7 * n := ⟨mat.length / 7, by omega⟩
  clear h
  induction n generalizing mat with
  | zero =>
    refine ⟨[], ?_⟩
    have : mat = [] := List.length_eq_zero.mp (by omega)
    simp [this, flatten]
  | succ n ih =>
    match mat, hn with
    | a0 :: a1 :: a2 :: a3 :: a4 :: a5 :: a6 :: rest, hn =>
      obtain ⟨gs, hgs⟩ := ih rest (by simp at hn; omega)
      exact ⟨⟨a0, a1, a2, a3, a4, a5, a6⟩ :: gs, by simp [flatten, Group.scalars, hgs]⟩
    | [], hn => simp at hn
    | [_], hn => simp at hn; omega
    | [_, _], hn => simp at hn; omega
    | [_, _, _], hn => simp at hn; omega
    | [_, _, _, _], hn => simp at hn; omega
    | [_, _, _, _, _], hn => simp at hn; omega
    | [_, _, _, _, _, _], hn => simp at hn; omega

/-- The outcome of a call on a readable image, with the class table read and
an output made of groups. -/
theorem Detect_groups (D : Detector) (req : DetectReq) (rsp : DetectRsp) (lines : List String)
    (gs : List Group) (himg : D.Empty (D.IMRead req.Input) = false)
    (hopen : D.Open (cocoDir req ++ "/classes.txt") = some lines)
    (hout : D.Forward (cocoDir req ++ "/frozen_inference_graph.pb")
      (cocoDir req ++ "/ssdlite_mobilenet_v2_coco.pbtxt") (D.IMRead req.Input) = flatten gs) :
    Detect D req rsp = decodeGroups D (D.IMRead req.Input) (lines.map TrimSpace) gs rsp := by
  unfold Detect
  simp only [himg, hopen, hout, Bool.false_eq_true, if_false]
  have h := detectLoop_groups D (D.IMRead req.Input) (lines.map TrimSpace) gs [] rsp
    ((flatten gs).length + 1) (by
      have := flatten_length gs
      omega)
  simpa using h

/-- C6, as stated, fails: the detector's output is two groups of seven
scalars, both at confidence 1/2, above 0.3, the first of class 1, a line of the
table of three lines, the second of class 7, which is not; the response list is
not the two retained groups, and not the first alone: the lookup of class 7
panics and the call returns no list. -/
theorem confident_groups_lost_to_panic :
    (toyDetector (flatten [toyGroupOne, toyGroupSeven])).Forward
        "coco/frozen_inference_graph.pb" "coco/ssdlite_mobilenet_v2_coco.pbtxt" "img" =
        flatten [toyGroupOne, toyGroupSeven] ∧
      Float32.gt toyGroupOne.confidence (Float32.roundFrac 3 10) = true ∧
      Float32.gt toyGroupSeven.confidence (Float32.roundFrac 3 10) = true ∧
      toyGroupOne.inTable (toyDetector (flatten [toyGroupOne, toyGroupSeven]))
        ["zero", "one", "two"] = true ∧
      Detect (toyDetector (flatten [toyGroupOne, toyGroupSeven]))
        { Input := "img", Output := "", CocoDir := "coco" } { List := [] } =
        Outcome.panicked := by
  decide

/-- C6, amended: on a readable image with the class table read, for every
output of the detector made of consecutive groups of seven scalars, when the
class identifier of every group whose confidence is above the `float32`
constant 0.3 is an index of the class table, the call returns and the response
list is the list before the call followed by the detections of exactly those
groups, in their order, each with the class identifier and the confidence of
its group; when one of them is not, the call panics and returns no list. A
confidence equal to that constant is excluded, the next `float32` value above
it is retained. -/
theorem detect_retains_confident_groups (D : Detector) (req : DetectReq) (rsp : DetectRsp)
    (lines : List String) (gs : List Group)
    (himg : D.Empty (D.IMRead req.Input) = false)
    (hopen : D.Open (cocoDir req ++ "/classes.txt") = some lines)
    (hout : D.Forward (cocoDir req ++ "/frozen_inference_graph.pb")
      (cocoDir req ++ "/ssdlite_mobilenet_v2_coco.pbtxt") (D.IMRead req.Input) = flatten gs) :
    Detect D req rsp =
        (if (gs.filter Group.retained).all (fun g => g.inTable D (lines.map TrimSpace)) then
          Outcome.returned
            { List := rsp.List ++ (gs.filter Group.retained).map
                (Group.toObj D (D.IMRead req.Input) (lines.map TrimSpace)) }
        else Outcome.panicked) ∧
      (∀ g : Group, g.retained = Float32.gt g.confidence (Float32.roundFrac 3 10)) ∧
      (∀ g : Group, g.confidence = Float32.roundFrac 3 10 → g.retained = false) ∧
      (∀ g : Group, g.confidence = Float32.fin (mkRat 10066331 33554432) → g.retained = true) ∧
      (∀ g : Group,
        (g.toObj D (D.IMRead req.Input) (lines.map TrimSpace)).ClassId =
            Float32.toInt D.intOf g.classId ∧
          (g.toObj D (D.IMRead req.Input) (lines.map TrimSpace)).Confidence = g.confidence) := by
  refine ⟨?_, fun g => rfl, fun g hg => ?_, fun g hg => ?_, fun g => ⟨rfl, rfl⟩⟩
  · rw [Detect_groups D req rsp lines gs himg hopen hout]
    split_ifs with h
    · refine decodeGroups_ok D _ _ gs rsp (fun g hg hr => ?_)
      rw [List.all_eq_true] at h
      exact h g (List.mem_filter.mpr ⟨hg, hr⟩)
    · refine decodeGroups_panic D _ _ gs rsp ?_
      rw [List.all_eq_true] at h
      push_neg at h
      obtain ⟨g, hg, ht⟩ := h
      obtain ⟨hg1, hg2⟩ := List.mem_filter.mp hg
      exact ⟨g, hg1, hg2, by simpa using ht⟩
  · unfold Group.retained
    rw [hg]
    decide
  · unfold Group.retained
    rw [hg]
    decide

theorem detect_retains_confident_groups_witness :
    (toyDetector (flatten (toyGroups.take 2))).Empty
        ((toyDetector (flatten (toyGroups.take 2))).IMRead "img") = false ∧
      (toyDetector (flatten (toyGroups.take 2))).Open "coco/classes.txt" =
        some ["zero", " one ", "two"] ∧
      (toyDetector (flatten (toyGroups.take 2))).Forward "coco/frozen_inference_graph.pb"
        "coco/ssdlite_mobilenet_v2_coco.pbtxt" "img" = flatten (toyGroups.take 2) ∧
      Detect (toyDetector (flatten (toyGroups.take 2)))
          { Input := "img", Output := "", CocoDir := "coco" } { List := [] } =
        Outcome.returned
          { List := [{ ClassId := 1, ClassName := "one", Confidence := Float32.fin (mkRat 1 2),
                       Left := 25, Top := 25, Right := 50, Bottom := 37 }] } :=
  have h := (detect_retains_confident_groups (toyDetector (flatten (toyGroups.take 2)))
    { Input := "img", Output := "", CocoDir := "coco" } { List := [] }
    ["zero", " one ", "two"] (toyGroups.take 2) (by decide) (by decide) (by decide)).1
  ⟨by decide, by decide, by decide, h.trans (by decide)⟩

/-- C9, as stated, fails: the image is readable and the request names no model
directory, so that the class table is looked for under the default directory,
where it cannot be opened; the call does not return a result to the caller: it
ends the process with exit status 1. -/
theorem missing_class_table_exits :
    (toyDetector []).Empty ((toyDetector []).IMRead "img") = false ∧
      (toyDetector []).Open "./data/ssdlite_mobilenet_v2_coco/classes.txt" = none ∧
      Detect (toyDetector []) { Input := "img", Output := "", CocoDir := "" } { List := [] } =
        Outcome.exited 1 := by
  decide

/-- C9, amended: for every request whose image is readable and whose class
table cannot be opened, the error is not local to the call: `log.Fatal` logs it
and ends the process with exit status 1, and no result is returned. -/
theorem unopened_class_table_exits (D : Detector) (req : DetectReq) (rsp : DetectRsp)
    (himg : D.Empty (D.IMRead req.Input) = false)
    (hopen : D.Open (cocoDir req ++ "/classes.txt") = none) :
    Detect D req rsp = Outcome.exited 1 := by
  unfold Detect
  simp only [himg, hopen, Bool.false_eq_true, if_false]

theorem unopened_class_table_exits_witness :
    (toyDetector toyGroupOne.scalars).Empty
        ((toyDetector toyGroupOne.scalars).IMRead "photo") = false ∧
      (toyDetector toyGroupOne.scalars).Open
        (cocoDir { Input := "photo", Output := "", CocoDir := "elsewhere" } ++ "/classes.txt")
        = none ∧
      Detect (toyDetector toyGroupOne.scalars)
        { Input := "photo", Output := "", CocoDir := "elsewhere" } { List := [] } =
        Outcome.exited 1 :=
  ⟨by decide, by decide,
    unopened_class_table_exits (toyDetector toyGroupOne.scalars)
      { Input := "photo", Output := "", CocoDir := "elsewhere" } { List := [] }
      (by decide) (by decide)⟩

/-- C10: the lookup `classes[classId]` is in range exactly when
`0 ≤ classId < len(classes)`, the number of lines read. On a readable image
with the class table read and an output made of groups of seven scalars: when
every retained group has its class identifier in that range, the call returns,
with one detection for each retained group, whose class name is the trimmed
line of the table at its class identifier; when some retained group has a
class identifier that is negative or not below the number of lines, the lookup
is out of range and the call panics, returning no result. -/
theorem class_lookup_in_range (D : Detector) (req : DetectReq) (rsp : DetectRsp)
    (lines : List String) (gs : List Group)
    (himg : D.Empty (D.IMRead req.Input) = false)
    (hopen : D.Open (cocoDir req ++ "/classes.txt") = some lines)
    (hout : D.Forward (cocoDir req ++ "/frozen_inference_graph.pb")
      (cocoDir req ++ "/ssdlite_mobilenet_v2_coco.pbtxt") (D.IMRead req.Input) = flatten gs) :
    (∀ c : ℤ, (classAt (lines.map TrimSpace) c).isSome = true ↔ (0 ≤ c ∧ c < lines.length)) ∧
      ((∀ g ∈ gs, g.retained = true → 0 ≤ g.classIdInt D ∧ g.classIdInt D < lines.length) →
        ∃ dets : List DetectObj,
          Detect D req rsp = Outcome.returned { List := rsp.List ++ dets } ∧
          dets.map (fun o => o.ClassId) = (gs.filter Group.retained).map (Group.classIdInt D) ∧
          ∀ o ∈ dets, ∃ line, lines.get? o.ClassId.toNat = some line ∧
            o.ClassName = TrimSpace line) ∧
      ((∃ g ∈ gs, g.retained = true ∧
          (g.classIdInt D < 0 ∨ (lines.length : ℤ) ≤ g.classIdInt D)) →
        Detect D req rsp = Outcome.panicked) := by
  refine ⟨fun c => ?_, fun h => ?_, fun h => ?_⟩
  · simpa using classAt_isSome (lines.map TrimSpace) c
  · refine ⟨(gs.filter Group.retained).map
      (Group.toObj D (D.IMRead req.Input) (lines.map TrimSpace)), ?_, ?_, ?_⟩
    · rw [Detect_groups D req rsp lines gs himg hopen hout]
      refine decodeGroups_ok D _ _ gs rsp (fun g hg hr => ?_)
      unfold Group.inTable
      simpa using h g hg hr
    · simp [Group.toObj, Function.comp_def]
    · intro o ho
      obtain ⟨g, hg, rfl⟩ := List.mem_map.mp ho
      obtain ⟨hg1, hg2⟩ := List.mem_filter.mp hg
      obtain ⟨h0, h1⟩ := h g hg1 hg2
      have hlt : (g.classIdInt D).toNat < lines.length := by omega
      refine ⟨lines[(g.classIdInt D).toNat], ?_, ?_⟩
      · simp [Group.toObj, List.getElem?_eq_getElem hlt]
      · simp [Group.toObj, List.getElem?_eq_getElem hlt]
  · rw [Detect_groups D req rsp lines gs himg hopen hout]
    obtain ⟨g, hg, hr, hc⟩ := h
    refine decodeGroups_panic D _ _ gs rsp ⟨g, hg, hr, ?_⟩
    unfold Group.inTable
    simp only [List.length_map, decide_eq_false_iff_not, not_and, not_lt]
    intro h0
    omega

theorem class_lookup_in_range_witness :
    (toyDetector (flatten toyGroups)).Empty ((toyDetector (flatten toyGroups)).IMRead "img")
        = false ∧
      (toyDetector (flatten toyGroups)).Open "coco/classes.txt" =
        some ["zero", " one ", "two"] ∧
      (toyDetector (flatten toyGroups)).Forward "coco/frozen_inference_graph.pb"
        "coco/ssdlite_mobilenet_v2_coco.pbtxt" "img" = flatten toyGroups ∧
      (∃ g ∈ toyGroups, g.retained = true ∧
        (g.classIdInt (toyDetector (flatten toyGroups)) < 0 ∨
          ((["zero", " one ", "two"] : List String).length : ℤ) ≤
            g.classIdInt (toyDetector (flatten toyGroups)))) ∧
      Detect (toyDetector (flatten toyGroups))
        { Input := "img", Output := "", CocoDir := "coco" } { List := [] } = Outcome.panicked :=
  have hex : ∃ g ∈ toyGroups, g.retained = true ∧
      (g.classIdInt (toyDetector (flatten toyGroups)) < 0 ∨
        ((["zero", " one ", "two"] : List String).length : ℤ) ≤
          g.classIdInt (toyDetector (flatten toyGroups))) :=
    ⟨toyGroupSeven, by decide, by decide, Or.inr (by decide)⟩
  ⟨by decide, by decide, by decide, hex,
    (class_lookup_in_range (toyDetector (flatten toyGroups))
      { Input := "img", Output := "", CocoDir := "coco" } { List := [] }
      ["zero", " one ", "two"] toyGroups (by decide) (by decide) (by decide)).2.2 hex⟩

end Ancv
